import Mathlib

/-!
Verification of the t2md core (`src/t2md/cli.py`): the paragraph splitter,
chunk assembly helpers, run fingerprint, checkpoint cache with map/reduce
orchestration, and the two Markdown renderers (structured-document and
typeset/LaTeX variants).

Strings are shallowly embedded as `List Char` (`Str`), mirroring Python's
`str` operations (`split`, `strip`, `replace`, slicing) with executable
Lean definitions translated line by line from the source.
-/

set_option maxHeartbeats 1000000

/-- Python strings are modelled as lists of characters. -/
abbrev Str := List Char

/-- Python whitespace characters, as recognized by `str.strip()` with no
argument (space, tab, newline, carriage return, vertical tab, form feed). -/
def isPySpace (c : Char) : Bool :=
  c == ' ' || c == '\t' || c == '\n' || c == '\r' || c == '\x0b' || c == '\x0c'

/-- Python `str.lstrip()`. -/
def pyLStrip (s : Str) : Str := s.dropWhile isPySpace

/-- Python `str.rstrip()`. -/
def pyRStrip (s : Str) : Str := (s.reverse.dropWhile isPySpace).reverse

/-- Python `str.strip()`. -/
def pyStrip (s : Str) : Str := pyLStrip (pyRStrip s)

/-- Python `str.rstrip("\n")` (used on each line by the LaTeX renderer). -/
def rstripNl (s : Str) : Str := (s.reverse.dropWhile (fun c => c == '\n')).reverse

/-- Boolean prefix test on character lists (Python `str.startswith`). -/
def startsWithStr : Str → Str → Bool
  | [], _ => true
  | _ :: _, [] => false
  | a :: as, b :: bs => a == b && startsWithStr as bs

/-- The paragraph separator `"\n\n"`. -/
def nl2 : Str := ['\n', '\n']

/-- Prepend one character to the first segment of a split result. -/
def consHead (c : Char) : List Str → List Str
  | [] => [[c]]
  | p :: ps => (c :: p) :: ps

/-- Python `text.split("\n\n")`: non-overlapping, left-to-right, keeping
empty segments; an empty text yields `[""]`. -/
def splitParas : Str → List Str
  | [] => [[]]
  | '\n' :: '\n' :: rest => [] :: splitParas rest
  | c :: rest => consHead c (splitParas rest)

/-- Joining a list of paragraphs with the `"\n\n"` separator (the inverse
direction of `splitParas`). -/
def joinSep : List Str → Str
  | [] => []
  | [p] => p
  | p :: ps => p ++ nl2 ++ joinSep ps

/-- Fuelled worker for `hardSplit`; the fuel is structurally decreasing and
`s.length` fuel always suffices because each step consumes at least one
character (for a positive slice size). -/
def hardSplitF (maxChars : Nat) : Nat → Str → List Str
  | _, [] => []
  | 0, _ :: _ => []
  | fuel + 1, c :: rest =>
    if maxChars = 0 then []
    else (c :: rest).take maxChars :: hardSplitF maxChars fuel ((c :: rest).drop maxChars)

/-- The hard-split fallback of `split_large_text`: consecutive
`max_chars`-sized slices (`for i in range(0, len(para), max_chars)`; a zero
slice size raises in Python and is mapped to `[]` here, never reached by the
source, which calls it only with `max_chars ≥ 10000`). -/
def hardSplit (maxChars : Nat) (s : Str) : List Str :=
  hardSplitF maxChars s.length s

/-- Accumulator state of the paragraph-packing loop in `split_large_text`:
`pieces` are the flushed pieces, `current` is the joined running buffer
(`"".join(current)` in the source; its length is the source's `current_len`). -/
structure SplitState where
  pieces : List Str
  current : Str
deriving DecidableEq, Repr

/-- One iteration of the `for para in text.split("\n\n")` loop of
`split_large_text`. -/
def splitStep (maxChars : Nat) (st : SplitState) (para : Str) : SplitState :=
  if para = [] then st
  else
    let addition := if st.current = [] then para else nl2 ++ para
    if st.current.length + addition.length ≤ maxChars then
      { st with current := st.current ++ addition }
    else
      let pieces1 := if st.current = [] then st.pieces else st.pieces ++ [st.current]
      if para.length ≤ maxChars then
        { pieces := pieces1, current := para }
      else
        { pieces := pieces1 ++ hardSplit maxChars para, current := [] }

/-- The final-flush step of `split_large_text`
(`if current: pieces.append("".join(current))`). -/
def withCur (st : SplitState) : List Str :=
  if st.current = [] then st.pieces else st.pieces ++ [st.current]

/-- `split_large_text(text, max_chars)` from the source: paragraph-boundary
splitting with hard-split fallback, returning `[text]` for small inputs and
as the `return pieces if pieces else [text]` fallback. -/
def split_large_text (text : Str) (maxChars : Nat) : List Str :=
  if text.length ≤ maxChars then [text]
  else
    let st := (splitParas text).foldl (splitStep maxChars) ⟨[], []⟩
    let pieces := withCur st
    if pieces = [] then [text] else pieces

/-- Python `str.replace(old, new)` for a single-character pattern (the only
shape used by `escape_latex`): every occurrence, left to right. -/
def replaceChar (p : Char) (rep : Str) : Str → Str
  | [] => []
  | c :: rest => if c == p then rep ++ replaceChar p rep rest else c :: replaceChar p rep rest

/-- The ordered replacement table of `escape_latex` (Python dicts preserve
insertion order, so the replacements are applied in exactly this order,
backslash first and braces later). -/
def latexReplacements : List (Char × Str) :=
  [ ('\\', ("\\textbackslash\x7b\x7d".toList)),
    ('&', ("\\&".toList)),
    ('%', ("\\%".toList)),
    ('$', ("\\$".toList)),
    ('#', ("\\#".toList)),
    ('_', ("\\_".toList)),
    ('\x7b', ("\\\x7b".toList)),
    ('\x7d', ("\\\x7d".toList)),
    ('~', ("\\textasciitilde\x7b\x7d".toList)),
    ('^', ("\\textasciicircum\x7b\x7d".toList)) ]

/-- `escape_latex` from the source: sequential whole-string replacements in
table order, each pass operating on the output of the previous one. -/
def escape_latex (text : Str) : Str :=
  latexReplacements.foldl (fun s p => replaceChar p.1 p.2 s) text

/-- Scanner for the lazy regex body `(.+?)` followed by a closing delimiter:
having already consumed `acc` (reversed, nonempty), close at the earliest
position where `delim` matches; `.` does not match a newline. -/
def scanFrom (delim : Str) (acc : Str) : Str → Option (Str × Str)
  | [] => none
  | c :: rest =>
    if startsWithStr delim (c :: rest) then some (acc.reverse, (c :: rest).drop delim.length)
    else if c = '\n' then none
    else scanFrom delim (c :: acc) rest

/-- Match `(.+?)` then `delim` at the current position: at least one
non-newline character, then the earliest occurrence of `delim`. -/
def scanBody (delim : Str) : Str → Option (Str × Str)
  | [] => none
  | c :: rest => if c = '\n' then none else scanFrom delim [c] rest

/-- Attempt of the second regex alternative `\*(.+?)\*` at this position. -/
def matchItalAt (s : Str) : Option (Bool × Str × Str) :=
  if startsWithStr (['*']) s then
    match scanBody (['*']) (s.drop 1) with
    | some (g, r) => some (false, g, r)
    | none => none
  else none

/-- Attempt of the regex `\*\*(.+?)\*\*|\*(.+?)\*` at this position:
the first alternative is preferred; on its failure the second is tried at
the same start position (Python `re` alternation semantics). -/
def matchEmphAt (s : Str) : Option (Bool × Str × Str) :=
  if startsWithStr (['*', '*']) s then
    match scanBody (['*', '*']) (s.drop 2) with
    | some (g, r) => some (true, g, r)
    | none => matchItalAt s
  else matchItalAt s

/-- Fuelled scan of `apply_emphasis` (`pattern.finditer`): leftmost
non-overlapping matches; the gap before each match and the trailing gap are
escaped; group 1 becomes `\textbf`, group 2 `\textit`. Each step consumes at
least one character, so `s.length + 1` fuel always suffices. -/
def emphGo : Nat → Str → Str → Str
  | 0, gapRev, s => escape_latex gapRev.reverse ++ escape_latex s
  | _ + 1, gapRev, [] => escape_latex gapRev.reverse
  | fuel + 1, gapRev, c :: rest =>
    match matchEmphAt (c :: rest) with
    | some (true, g, r) =>
        escape_latex gapRev.reverse ++ ("\\textbf\x7b".toList) ++ escape_latex g
          ++ (['\x7d']) ++ emphGo fuel [] r
    | some (false, g, r) =>
        escape_latex gapRev.reverse ++ ("\\textit\x7b".toList) ++ escape_latex g
          ++ (['\x7d']) ++ emphGo fuel [] r
    | none => emphGo fuel (c :: gapRev) rest

/-- `apply_emphasis` from the source: convert `**bold**` and `*italic*`
while escaping all the surrounding text. -/
def apply_emphasis (text : Str) : Str :=
  emphGo (text.length + 1) [] text

/-- Python `text.split("`")` (single-character separator). -/
def splitChar (sep : Char) : Str → List Str
  | [] => [[]]
  | c :: rest =>
    if c = sep then [] :: splitChar sep rest
    else consHead c (splitChar sep rest)

/-- The even-count fixup of `convert_inline_md`:
`parts[-2] = parts[-2] + "`" + parts[-1]; parts = parts[:-1]`. -/
def rejoinLast (parts : List Str) : List Str :=
  match parts.reverse with
  | last :: butlast :: rest => ((butlast ++ '\x60' :: last) :: rest).reverse
  | _ => parts

/-- The rendering loop of `convert_inline_md`: odd-indexed segments become
`\texttt{...}` code spans (escaped only), even-indexed segments go through
`apply_emphasis`. -/
def renderParts : Nat → List Str → Str
  | _, [] => []
  | i, p :: ps =>
    (if i % 2 = 1 then ("\\texttt\x7b".toList) ++ escape_latex p ++ (['\x7d'])
     else apply_emphasis p) ++ renderParts (i + 1) ps

/-- `convert_inline_md` from the source: split on backticks, rejoin an
unmatched trailing backtick, then render segments by index parity. -/
def convert_inline_md (text : Str) : Str :=
  let parts := splitChar '\x60' text
  if parts.length = 1 then apply_emphasis text
  else
    let parts2 := if parts.length % 2 = 0 then rejoinLast parts else parts
    renderParts 0 parts2

/-- The numbered-list pattern `^\s*\d+\.\s+(.*)$` of both renderers,
returning group 1 on success. -/
def matchNumbered (line : Str) : Option Str :=
  let s := line.dropWhile isPySpace
  let ds := s.takeWhile Char.isDigit
  if ds.isEmpty then none
  else
    match s.drop ds.length with
    | '.' :: rest =>
      let sp := rest.takeWhile isPySpace
      if sp.isEmpty then none else some (rest.drop sp.length)
    | _ => none

/-- The per-paragraph output model of `write_docx_from_markdown`: one
constructor per `doc.add_*` call shape (heading level, list styles, quote,
plain paragraph, empty spacing paragraph). -/
inductive DocxBlock where
  | blank : DocxBlock
  | heading : Nat → Str → DocxBlock
  | bullet : Str → DocxBlock
  | numbered : Str → DocxBlock
  | quote : Str → DocxBlock
  | plain : Str → DocxBlock
deriving DecidableEq, Repr

/-- The loop body of `write_docx_from_markdown` for one raw line. -/
def docxLine (raw : Str) : DocxBlock :=
  let line := pyRStrip raw
  if (pyStrip line).isEmpty then .blank
  else if startsWithStr ("# ".toList) line then .heading 1 (pyStrip (line.drop 2))
  else if startsWithStr ("## ".toList) line then .heading 2 (pyStrip (line.drop 3))
  else if startsWithStr ("### ".toList) line then .heading 3 (pyStrip (line.drop 4))
  else if startsWithStr ("#### ".toList) line then .heading 4 (pyStrip (line.drop 5))
  else if startsWithStr ("- ".toList) (pyLStrip line) then .bullet (pyStrip ((pyLStrip line).drop 2))
  else
    match matchNumbered line with
    | some g => .numbered (pyStrip g)
    | none =>
      if startsWithStr ("> ".toList) line then .quote (pyStrip (line.drop 2))
      else .plain line

/-- Python `str.splitlines()` restricted to `'\n'` separators (the generated
markdown contains no other line-break characters): like splitting on `'\n'`
but without a trailing empty line, and `[]` on the empty string. -/
def splitlines (s : Str) : List Str :=
  match s with
  | [] => []
  | _ :: _ =>
    let parts := splitChar '\n' s
    if parts.getLast? = some [] then parts.dropLast else parts

/-- `write_docx_from_markdown` from the source, as the list of produced
document blocks in order. -/
def write_docx_from_markdown (md : Str) : List DocxBlock :=
  (splitlines md).map docxLine



/-- State of the line loop in `write_latex_from_markdown`: inside a fenced
code block, inside an open quote block, and the open list environment
(`none`, `"itemize"` or `"enumerate"`, kept as the source's strings). -/
structure LatexState where
  in_code : Bool
  in_quote : Bool
  list_mode : Option Str
deriving DecidableEq, Repr

/-- Emission of the source's `close_list()` helper. -/
def closeListOut : Option Str → List Str
  | some lm => [("\\end\x7b".toList) ++ lm ++ (['\x7d'])]
  | none => []

/-- Emission of the source's `close_quote()` helper. -/
def closeQuoteOut : Bool → List Str
  | true => [("\\end\x7bquote\x7d".toList)]
  | false => []

/-- The loop body of `write_latex_from_markdown` for one raw line: returns
the new state and the lines appended to `out`, transcribing the source's
branch order (fence toggle, raw code line, blank, headings, quote open,
quote close fall-through, bullet, numbered, paragraph). -/
def latexLine (st : LatexState) (raw_line : Str) : LatexState × List Str :=
  let line := rstripNl raw_line
  if startsWithStr ("```".toList) (pyStrip line) then
    ( { in_code := !st.in_code, in_quote := false, list_mode := none },
      closeListOut st.list_mode ++ closeQuoteOut st.in_quote
        ++ [if st.in_code then ("\\end\x7bverbatim\x7d".toList) else ("\\begin\x7bverbatim\x7d".toList)] )
  else if st.in_code then (st, [line])
  else if (pyStrip line).isEmpty then
    ( { st with in_quote := false, list_mode := none },
      closeListOut st.list_mode ++ closeQuoteOut st.in_quote ++ [[]] )
  else if startsWithStr ("# ".toList) line then
    ( { st with in_quote := false, list_mode := none },
      closeListOut st.list_mode ++ closeQuoteOut st.in_quote
        ++ [("\\section\x7b".toList) ++ convert_inline_md (pyStrip (line.drop 2)) ++ (['\x7d'])] )
  else if startsWithStr ("## ".toList) line then
    ( { st with in_quote := false, list_mode := none },
      closeListOut st.list_mode ++ closeQuoteOut st.in_quote
        ++ [("\\subsection\x7b".toList) ++ convert_inline_md (pyStrip (line.drop 3)) ++ (['\x7d'])] )
  else if startsWithStr ("### ".toList) line then
    ( { st with in_quote := false, list_mode := none },
      closeListOut st.list_mode ++ closeQuoteOut st.in_quote
        ++ [("\\subsubsection\x7b".toList) ++ convert_inline_md (pyStrip (line.drop 4)) ++ (['\x7d'])] )
  else if startsWithStr ("#### ".toList) line then
    ( { st with in_quote := false, list_mode := none },
      closeListOut st.list_mode ++ closeQuoteOut st.in_quote
        ++ [("\\paragraph\x7b".toList) ++ convert_inline_md (pyStrip (line.drop 5)) ++ (['\x7d'])] )
  else if startsWithStr ("> ".toList) line then
    ( { st with in_quote := true, list_mode := none },
      closeListOut st.list_mode
        ++ (if st.in_quote then [] else [("\\begin\x7bquote\x7d".toList)])
        ++ [convert_inline_md (pyStrip (line.drop 2))] )
  else
    let quoteOut := closeQuoteOut st.in_quote
    if startsWithStr ("- ".toList) (pyLStrip line) then
      let item := pyStrip ((pyLStrip line).drop 2)
      if st.list_mode = some ("itemize".toList) then
        ( { st with in_quote := false },
          quoteOut ++ [("\\item ".toList) ++ convert_inline_md item] )
      else
        ( { st with in_quote := false, list_mode := some ("itemize".toList) },
          quoteOut ++ closeListOut st.list_mode
            ++ [("\\begin\x7bitemize\x7d".toList), ("\\item ".toList) ++ convert_inline_md item] )
    else
      match matchNumbered line with
      | some g =>
        let item := pyStrip g
        if st.list_mode = some ("enumerate".toList) then
          ( { st with in_quote := false },
            quoteOut ++ [("\\item ".toList) ++ convert_inline_md item] )
        else
          ( { st with in_quote := false, list_mode := some ("enumerate".toList) },
            quoteOut ++ closeListOut st.list_mode
              ++ [("\\begin\x7benumerate\x7d".toList), ("\\item ".toList) ++ convert_inline_md item] )
      | none =>
        ( { st with in_quote := false, list_mode := none },
          quoteOut ++ closeListOut st.list_mode ++ [convert_inline_md line] )

/-- Joining output lines with `"\n"` (the final `"\n".join(out)`). -/
def joinNl : List Str → Str
  | [] => []
  | [l] => l
  | l :: ls => l ++ '\n' :: joinNl ls

/-- The fixed LaTeX preamble emitted by `write_latex_from_markdown`,
with the escaped title. -/
def latexPreamble (title : Str) : List Str :=
  [ ("\\documentclass[11pt]\x7barticle\x7d".toList),
    ("\\usepackage[utf8]\x7binputenc\x7d".toList),
    ("\\usepackage[T1]\x7bfontenc\x7d".toList),
    ("\\usepackage\x7blmodern\x7d".toList),
    ("\\usepackage\x7bgeometry\x7d".toList),
    ("\\usepackage\x7bhyperref\x7d".toList),
    ("\\usepackage\x7benumitem\x7d".toList),
    ("\\usepackage\x7bparskip\x7d".toList),
    ("\\geometry\x7bmargin=1in\x7d".toList),
    ("\\setlist\x7bnoitemsep\x7d".toList),
    ("\\title\x7b".toList) ++ escape_latex title ++ (['\x7d']),
    ("\\date\x7b\x7d".toList),
    ("\\begin\x7bdocument\x7d".toList),
    ("\\maketitle".toList),
    ("\\tableofcontents".toList),
    [] ]

/-- The line-loop fold of `write_latex_from_markdown`. -/
def latexFold (lines : List Str) (st : LatexState) : LatexState × List Str :=
  lines.foldl (fun acc l =>
    let (st2, outs) := latexLine acc.1 l
    (st2, acc.2 ++ outs)) (st, [])

/-- `write_latex_from_markdown` from the source: preamble, folded body,
closing of any open list/quote/verbatim, and `\end{document}`, joined by
newlines. -/
def write_latex_from_markdown (md : Str) (title : Str) : Str :=
  let init : LatexState := { in_code := false, in_quote := false, list_mode := none }
  let (stF, body) := latexFold (splitlines md) init
  joinNl (latexPreamble title ++ body
    ++ closeListOut stF.list_mode ++ closeQuoteOut stF.in_quote
    ++ (if stF.in_code then [("\\end\x7bverbatim\x7d".toList)] else [])
    ++ [("\\end\x7bdocument\x7d".toList)])


/-- The decimal digit characters, for Python `str(n)` / f-string interpolation. -/
def digitChar : Nat → Char
  | 0 => '0'
  | 1 => '1'
  | 2 => '2'
  | 3 => '3'
  | 4 => '4'
  | 5 => '5'
  | 6 => '6'
  | 7 => '7'
  | 8 => '8'
  | _ => '9'

/-- Fuelled worker for `natDigits`; `n + 1` fuel always suffices since the
argument at least halves each step. -/
def natDigitsF : Nat → Nat → Str
  | 0, _ => []
  | fuel + 1, n => if n < 10 then [digitChar n] else natDigitsF fuel (n / 10) ++ [digitChar (n % 10)]

/-- Python `str(n)` for a natural number: decimal digits, no sign, no padding. -/
def natDigits (n : Nat) : Str := natDigitsF (n + 1) n

/-- Python `f"{n:03d}"`: the decimal digits left-padded with `'0'` to width 3. -/
def pad3 (n : Nat) : Str := List.replicate (3 - (natDigits n).length) '0' ++ natDigits n

/-- The character class `[A-Za-z0-9._-]` of `sanitize_name`. -/
def isSanAllowed (c : Char) : Bool :=
  c.isAlpha || c.isDigit || c == '.' || c == '_' || c == '-'

mutual

/-- `re.sub(r"[^A-Za-z0-9._-]+", "_", value)`: each maximal run of
disallowed characters becomes a single underscore. -/
def collapseBad : Str → Str
  | [] => []
  | c :: rest => if isSanAllowed c then c :: collapseBad rest else '_' :: collapseSkip rest

/-- Worker of `collapseBad` while inside a disallowed run. -/
def collapseSkip : Str → Str
  | [] => []
  | c :: rest => if isSanAllowed c then c :: collapseBad rest else collapseSkip rest

end

/-- Python `str.strip("._-")`. -/
def stripDotSep (s : Str) : Str :=
  let sep := fun c => c == '.' || c == '_' || c == '-'
  ((s.dropWhile sep).reverse.dropWhile sep).reverse

/-- `sanitize_name` from the source: collapse disallowed runs to `_`, strip
leading/trailing `._-`, defaulting to `"module"` when empty. -/
def sanitize_name (value : Str) : Str :=
  let cleaned := stripDotSep (collapseBad value)
  if cleaned.isEmpty then ("module".toList) else cleaned

/-- The fingerprint-scoped cache directory of the `run` command:
`out / ".t2md_runs" / f"{sanitize_name(module_name)}_{run_hash}"`
(POSIX `/` joining). -/
def cacheDirPath (out module_name run_hash : Str) : Str :=
  out ++ '/' :: (".t2md_runs".toList) ++ '/' :: (sanitize_name module_name ++ '_' :: run_hash)

/-- The checkpoint file path of the `run` command:
`cache_dir / f"chunk_{idx:03d}.md"`. -/
def checkpointPath (out module_name run_hash : Str) (idx : Nat) : Str :=
  cacheDirPath out module_name run_hash ++ '/' :: (("chunk_".toList) ++ pad3 idx ++ (".md".toList))

/-- `build_single_prompt` from the source: the whole-transcript (single-pass)
prompt template, `.strip()`ped. -/
def build_single_prompt (module_name prompt_rules transcripts : Str) : Str :=
  pyStrip (("\nYou will be given:\n1) PROMPT_RULES (how to transform)\n2) TRANSCRIPTS (raw content)\n\nReturn EXACTLY two top-level Markdown sections:\n\n# ".toList)
    ++ module_name
    ++ (" — Executive Summary\n- thesis (2–4 sentences)\n- 5–10 key concepts\n- 2–5 examples/case studies\n- what to remember (3–7 bullets)\n\n# ".toList)
    ++ module_name
    ++ (" — Reading\nFollow PROMPT_RULES to create a readable textbook-style markdown:\n- include a TOC\n- clean headings\n- preserve important examples\n- remove transcript artifacts\n- end with a synthesis summary\n\nPROMPT_RULES:\n".toList)
    ++ prompt_rules
    ++ ("\n\nTRANSCRIPTS:\n".toList)
    ++ transcripts
    ++ (['\n']))

/-- `build_chunk_prompt` from the source: the per-chunk "extract
high-fidelity notes" prompt template, `.strip()`ped. -/
def build_chunk_prompt (module_name prompt_rules chunk_text : Str) (chunk_idx chunk_total : Nat) : Str :=
  pyStrip (("\nYou are processing chunk ".toList)
    ++ natDigits chunk_idx
    ++ (" of ".toList)
    ++ natDigits chunk_total
    ++ (" for module \"".toList)
    ++ module_name
    ++ ("\".\nExtract high-fidelity notes from this chunk only. Keep details that must survive into the final textbook output.\n\nReturn Markdown using this structure exactly:\n\n# Chunk ".toList)
    ++ natDigits chunk_idx
    ++ (" Notes\n## Core Concepts\n- 5-12 bullets with concise detail\n## Important Examples\n- examples/case studies from this chunk\n## Definitions and Terms\n- terms with brief definitions\n## Keep-for-Final\n- facts/insights that should appear in the final executive summary or reading\n\nRules:\n- Do not invent details.\n- Preserve chronology and source-specific context when relevant.\n- Keep output concise but information-dense.\n\nPROMPT_RULES:\n".toList)
    ++ prompt_rules
    ++ ("\n\nTRANSCRIPT_CHUNK:\n".toList)
    ++ chunk_text
    ++ (['\n']))

/-- `build_reduce_prompt` from the source: the final synthesis prompt over
the concatenated chunk notes, `.strip()`ped. -/
def build_reduce_prompt (module_name prompt_rules chunk_notes : Str) : Str :=
  pyStrip (("\nYou will be given:\n1) PROMPT_RULES\n2) CHUNK_NOTES produced from sequential transcript chunks\n\nSynthesize them into a single coherent result.\nReturn EXACTLY two top-level Markdown sections:\n\n# ".toList)
    ++ module_name
    ++ (" — Executive Summary\n- thesis (2–4 sentences)\n- 5–10 key concepts\n- 2–5 examples/case studies\n- what to remember (3–7 bullets)\n\n# ".toList)
    ++ module_name
    ++ (" — Reading\nFollow PROMPT_RULES to create a readable textbook-style markdown:\n- include a TOC\n- clean headings\n- preserve important examples\n- remove transcript artifacts\n- end with a synthesis summary\n\nRules:\n- Merge overlapping ideas and remove duplication.\n- Preserve chronology where it improves understanding.\n- Keep final structure clean and publication-ready.\n\nPROMPT_RULES:\n".toList)
    ++ prompt_rules
    ++ ("\n\nCHUNK_NOTES:\n".toList)
    ++ chunk_notes
    ++ (['\n']))

/-- The checkpoint directory contents, modelled as an association list from
chunk index to raw file content; `lookup` finding nothing means the file
does not exist. Writes prepend, so later reads observe them. -/
abbrev Cache := List (Nat × Str)

/-- `checkpoint_file.write_text(note)`. -/
def cacheWrite (c : Cache) (i : Nat) (v : Str) : Cache := (i, v) :: c

/-- Raw content of a checkpoint file (empty for a missing file). -/
def cacheContent (c : Cache) (i : Nat) : Str := (List.lookup i c).getD []

/-- A checkpoint that triggers reuse on resume: the file exists and its
content is non-empty after `read_text`'s `.strip()`. -/
def goodCheckpoint (c : Cache) (i : Nat) : Bool :=
  match List.lookup i c with
  | some v => !(pyStrip v).isEmpty
  | none => false

/-- `generate_with_model` from the source: the opaque backend `gen` maps a
prompt to raw output; the stripped output is returned, and a blank output
raises (modelled as `none`). -/
def generate_with_model (gen : Str → Str) (prompt : Str) : Option Str :=
  let output := pyStrip (gen prompt)
  if output.isEmpty then none else some output

/-- The chunk-note wrapper appended to `chunk_notes`:
`f"\n\n---\n\n# CHUNK {idx} NOTES\n\n{note}\n"`. -/
def wrapChunkNote (idx : Nat) (note : Str) : Str :=
  ("\n\n---\n\n# CHUNK ".toList) ++ natDigits idx ++ (" NOTES\n\n".toList) ++ note ++ (['\n'])

/-- State of the map phase of `run`: accumulated `chunk_notes`, the cache
directory contents, and the prompts sent to the generation backend so far. -/
structure MapState where
  notes : List Str
  cache : Cache
  calls : List Str
deriving DecidableEq, Repr

/-- One iteration of the `for idx, chunk_text in enumerate(chunks, start=1)`
loop of `run`: reuse a non-empty checkpoint when resuming, otherwise invoke
the backend; blank output aborts (error carries the state at abort, with the
failing prompt recorded as a performed call and no checkpoint written). -/
def stepChunk (resume : Bool) (gen : Str → Str) (module_name prompt_rules : Str)
    (total : Nat) (st : MapState) (ic : Nat × Str) : Except MapState MapState :=
  let reuse : Option Str :=
    if resume then
      match List.lookup ic.1 st.cache with
      | some content =>
        let note := pyStrip content
        if note.isEmpty then none else some note
      | none => none
    else none
  match reuse with
  | some note => .ok { st with notes := st.notes ++ [wrapChunkNote ic.1 note] }
  | none =>
    let chunk_prompt := build_chunk_prompt module_name prompt_rules ic.2 ic.1 total
    match generate_with_model gen chunk_prompt with
    | none => .error { st with calls := st.calls ++ [chunk_prompt] }
    | some note =>
      .ok { notes := st.notes ++ [wrapChunkNote ic.1 note],
            cache := cacheWrite st.cache ic.1 note,
            calls := st.calls ++ [chunk_prompt] }

/-- Python `enumerate(l, start=k)`. -/
def enumFrom (k : Nat) : List α → List (Nat × α)
  | [] => []
  | a :: as => (k, a) :: enumFrom (k + 1) as

/-- The whole map phase: `stepChunk` over the enumerated chunks, aborting at
the first blank generation. -/
def mapChunks (resume : Bool) (gen : Str → Str) (module_name prompt_rules : Str)
    (total : Nat) : List (Nat × Str) → MapState → Except MapState MapState
  | [], st => .ok st
  | ic :: rest, st =>
    match stepChunk resume gen module_name prompt_rules total st ic with
    | .ok st2 => mapChunks resume gen module_name prompt_rules total rest st2
    | .error st2 => .error st2

/-- The initial map state over a prior run's checkpoint directory. -/
def initMapState (cache0 : Cache) : MapState :=
  { notes := [], cache := cache0, calls := [] }

/-- Observable trace of one `run` invocation: prompts sent to the backend in
order, final checkpoint-directory contents, the `chunk_notes` list, and
whether the cache directory was created (`cache_dir.mkdir`). -/
structure RunTrace where
  calls : List Str
  cache : Cache
  notes : List Str
  cacheDirCreated : Bool
deriving DecidableEq, Repr

/-- The generation dispatch of `run` (source lines 587-620), given the
assembled chunks: a single chunk goes straight to the single-pass prompt
with no cache directory and no checkpoints; multiple chunks run the cached
map phase and one reduce call. The first component is the final output text
(`none` when the run aborts on a blank generation). -/
def runPipeline (resume : Bool) (gen : Str → Str) (cache0 : Cache)
    (module_name prompt_rules : Str) (chunks : List Str) : Option Str × RunTrace :=
  if chunks.length = 1 then
    let user_prompt := build_single_prompt module_name prompt_rules (chunks.headD [])
    ( generate_with_model gen user_prompt,
      { calls := [user_prompt], cache := cache0, notes := [], cacheDirCreated := false } )
  else
    match mapChunks resume gen module_name prompt_rules chunks.length
        (enumFrom 1 chunks) (initMapState cache0) with
    | .error st =>
      ( none,
        { calls := st.calls, cache := st.cache, notes := st.notes, cacheDirCreated := true } )
    | .ok st =>
      let reduce_prompt := build_reduce_prompt module_name prompt_rules (pyStrip st.notes.flatten)
      ( generate_with_model gen reduce_prompt,
        { calls := st.calls ++ [reduce_prompt], cache := st.cache, notes := st.notes,
          cacheDirCreated := true } )

/-- UTF-8 encoding of one code point (1 to 4 bytes). -/
def utf8Char (n : Nat) : List Nat :=
  if n < 128 then [n]
  else if n < 2048 then [192 + n / 64, 128 + n % 64]
  else if n < 65536 then [224 + n / 4096, 128 + (n / 64) % 64, 128 + n % 64]
  else [240 + n / 262144, 128 + (n / 4096) % 64, 128 + (n / 64) % 64, 128 + n % 64]

/-- Python `str.encode("utf-8")`. -/
def utf8Encode (s : Str) : List Nat :=
  (s.map (fun c => utf8Char c.toNat)).flatten

/-- The 32-bit modulus of the SHA-256 arithmetic. -/
def M32 : Nat := 4294967296

/-- 32-bit right-rotation of a word below `M32`. -/
def rotr (k n : Nat) : Nat := (n / 2 ^ k + (n % 2 ^ k) * 2 ^ (32 - k)) % M32

/-- Logical right shift. -/
def shr (k n : Nat) : Nat := n / 2 ^ k

/-- The SHA-256 `Ch` function. -/
def shaCh (x y z : Nat) : Nat := (x &&& y) ^^^ ((4294967295 ^^^ x) &&& z)

/-- The SHA-256 `Maj` function. -/
def shaMaj (x y z : Nat) : Nat := (x &&& y) ^^^ (x &&& z) ^^^ (y &&& z)

/-- The SHA-256 Σ0 function. -/
def bigSigma0 (x : Nat) : Nat := rotr 2 x ^^^ rotr 13 x ^^^ rotr 22 x

/-- The SHA-256 Σ1 function. -/
def bigSigma1 (x : Nat) : Nat := rotr 6 x ^^^ rotr 11 x ^^^ rotr 25 x

/-- The SHA-256 σ0 function. -/
def smallSigma0 (x : Nat) : Nat := rotr 7 x ^^^ rotr 18 x ^^^ shr 3 x

/-- The SHA-256 σ1 function. -/
def smallSigma1 (x : Nat) : Nat := rotr 17 x ^^^ rotr 19 x ^^^ shr 10 x

/-- The 64 SHA-256 round constants of FIPS 180-4, as decimal naturals. -/
def shaK : List Nat :=
  [ 1116352408, 1899447441, 3049323471, 3921009573, 961987163,
    1508970993, 2453635748, 2870763221, 3624381080, 310598401,
    607225278, 1426881987, 1925078388, 2162078206, 2614888103,
    3248222580, 3835390401, 4022224774, 264347078, 604807628,
    770255983, 1249150122, 1555081692, 1996064986, 2554220882,
    2821834349, 2952996808, 3210313671, 3336571891, 3584528711,
    113926993, 338241895, 666307205, 773529912, 1294757372,
    1396182291, 1695183700, 1986661051, 2177026350, 2456956037,
    2730485921, 2820302411, 3259730800, 3345764771, 3516065817,
    3600352804, 4094571909, 275423344, 430227734, 506948616,
    659060556, 883997877, 958139571, 1322822218, 1537002063,
    1747873779, 1955562222, 2024104815, 2227730452, 2361852424,
    2428436474, 2756734187, 3204031479, 3329325298 ]

/-- The SHA-256 initial hash value, as decimal naturals. -/
def shaH0 : List Nat :=
  [ 1779033703, 3144134277, 1013904242, 2773480762, 1359893119,
    2600822924, 528734635, 1541459225 ]

/-- Big-endian encoding of the 64-bit message bit length. -/
def be8 (n : Nat) : List Nat :=
  [ n / 2 ^ 56 % 256, n / 2 ^ 48 % 256, n / 2 ^ 40 % 256, n / 2 ^ 32 % 256,
    n / 2 ^ 24 % 256, n / 2 ^ 16 % 256, n / 2 ^ 8 % 256, n % 256 ]

/-- SHA-256 padding: `0x80`, zeros, then the 64-bit big-endian bit length,
up to a multiple of 64 bytes. -/
def padMsg (msg : List Nat) : List Nat :=
  msg ++ 128 :: List.replicate ((64 - (msg.length + 9) % 64) % 64) 0 ++ be8 (msg.length * 8)

/-- Fuelled split into 64-byte blocks. -/
def toBlocksF : Nat → List Nat → List (List Nat)
  | _, [] => []
  | 0, _ :: _ => []
  | fuel + 1, l => l.take 64 :: toBlocksF fuel (l.drop 64)

/-- Split a byte list into 64-byte blocks. -/
def toBlocks (l : List Nat) : List (List Nat) := toBlocksF l.length l

/-- Fuelled big-endian conversion of bytes to 32-bit words. -/
def toWordsF : Nat → List Nat → List Nat
  | 0, _ => []
  | _ + 1, a :: b :: c :: d :: rest => (a * 16777216 + b * 65536 + c * 256 + d) :: toWordsF rest.length rest
  | _ + 1, _ => []

/-- Big-endian conversion of a byte list to 32-bit words. -/
def toWords (l : List Nat) : List Nat := toWordsF l.length l

/-- One message-schedule extension step: append
`σ1(w[i-2]) + w[i-7] + σ0(w[i-15]) + w[i-16]` for the next index. -/
def scheduleStep (w : List Nat) : List Nat :=
  let L := w.length
  w ++ [(smallSigma1 (w.getD (L - 2) 0) + w.getD (L - 7) 0
         + smallSigma0 (w.getD (L - 15) 0) + w.getD (L - 16) 0) % M32]

/-- Extend the 16 block words to the 64-entry message schedule. -/
def schedule (w : List Nat) : List Nat :=
  (List.range 48).foldl (fun acc _ => scheduleStep acc) w

/-- One SHA-256 compression round on the `[a,b,c,d,e,f,g,h]` state. -/
def compressStep (s : List Nat) (kw : Nat × Nat) : List Nat :=
  match s with
  | [a, b, c, d, e, f, g, h] =>
    let t1 := (h + bigSigma1 e + shaCh e f g + kw.1 + kw.2) % M32
    let t2 := (bigSigma0 a + shaMaj a b c) % M32
    [(t1 + t2) % M32, a, b, c, (d + t1) % M32, e, f, g]
  | other => other

/-- Process one 64-byte block: 64 compression rounds, then the feed-forward
addition into the running hash value. -/
def processBlock (h : List Nat) (block : List Nat) : List Nat :=
  let s := (shaK.zip (schedule (toWords block))).foldl compressStep h
  List.zipWith (fun x y => (x + y) % M32) h s

/-- Big-endian bytes of one 32-bit word. -/
def be4 (n : Nat) : List Nat := [n / 16777216 % 256, n / 65536 % 256, n / 256 % 256, n % 256]

/-- SHA-256 of a byte list, as 32 digest bytes (the `hashlib.sha256`
collaborator, implemented from FIPS 180-4). -/
def sha256 (msg : List Nat) : List Nat :=
  (((toBlocks (padMsg msg)).foldl processBlock shaH0).map be4).flatten

/-- Lowercase hex character of a value below 16. -/
def hexChar (d : Nat) : Char := ("0123456789abcdef".toList).getD d '0'

/-- Python `hexdigest()`: lowercase hex of the digest bytes. -/
def hexDigest (bytes : List Nat) : Str :=
  (bytes.map (fun b => [hexChar (b / 16), hexChar (b % 16)])).flatten

/-- The exact byte stream fed to the hash by `compute_run_hash` through its
sequence of `hasher.update(...)` calls (concatenation, no separators):
module name, model, `str(chunk_chars)`, format name, prompt rules, then per
file the resolved path, `str(st_size)` and `str(st_mtime_ns)`. Files are
modelled as the `(resolved path, st_size, st_mtime_ns)` triples the
filesystem `stat` collaborator returns. -/
def runHashInput (module_name model : Str) (chunk_chars : Nat)
    (format_name prompt_rules : Str) (files : List (Str × Nat × Nat)) : Str :=
  module_name ++ model ++ natDigits chunk_chars ++ format_name ++ prompt_rules
    ++ (files.map (fun f => f.1 ++ natDigits f.2.1 ++ natDigits f.2.2)).flatten

/-- `compute_run_hash` from the source: `hexdigest()[:12]` of the SHA-256 of
the update stream. -/
def compute_run_hash (files : List (Str × Nat × Nat)) (module_name model : Str)
    (chunk_chars : Nat) (prompt_rules format_name : Str) : Str :=
  (hexDigest (sha256 (utf8Encode
    (runHashInput module_name model chunk_chars format_name prompt_rules files)))).take 12

/-- Gluing two paragraph blocks with the separator, with empty blocks
absorbed (helper for the packing-loop invariant). -/
def glueSep (a b : Str) : Str :=
  if a = [] then b else if b = [] then a else a ++ nl2 ++ b

/-- Substring containment test (Python `in` on strings). -/
def containsStr (needle : Str) : Str → Bool
  | [] => startsWithStr needle []
  | c :: rest => startsWithStr needle (c :: rest) || containsStr needle rest

/-- Numeric value of a decimal digit character (inverse of `digitChar`). -/
def digitVal (c : Char) : Nat :=
  if c = '0' then 0 else if c = '1' then 1 else if c = '2' then 2
  else if c = '3' then 3 else if c = '4' then 4 else if c = '5' then 5
  else if c = '6' then 6 else if c = '7' then 7 else if c = '8' then 8 else 9

/-- Numeric value of a decimal digit string (inverse of `natDigits`). -/
def valOfDigits (s : Str) : Nat := s.foldl (fun a c => 10 * a + digitVal c) 0

theorem joinSep_cons_cons (p : Str) (q : Str) (ps : List Str) :
    joinSep (p :: q :: ps) = p ++ nl2 ++ joinSep (q :: ps) := by
  rfl

theorem joinSep_cons_head (c : Char) (p : Str) (ps : List Str) :
    joinSep ((c :: p) :: ps) = c :: joinSep (p :: ps) := by
  cases ps with
  | nil => rfl
  | cons q qs => simp [joinSep_cons_cons]

theorem consHead_ne_nil (c : Char) (l : List Str) : consHead c l ≠ [] := by
  cases l <;> simp [consHead]

theorem splitParas_ne_nil (s : Str) : splitParas s ≠ [] := by
  induction s using splitParas.induct with
  | case1 => simp [splitParas]
  | case2 rest ih => simp [splitParas]
  | case3 c rest h ih => simpa [splitParas] using consHead_ne_nil c (splitParas rest)

theorem joinSep_consHead (c : Char) (l : List Str) (hl : l ≠ []) :
    joinSep (consHead c l) = c :: joinSep l := by
  cases l with
  | nil => exact absurd rfl hl
  | cons p ps => rw [consHead, joinSep_cons_head]

theorem joinSep_splitParas (s : Str) : joinSep (splitParas s) = s := by
  induction s using splitParas.induct with
  | case1 => rfl
  | case2 rest ih =>
    simp only [splitParas]
    cases h2 : splitParas rest with
    | nil => exact absurd h2 (splitParas_ne_nil rest)
    | cons p ps =>
      rw [h2] at ih
      simp [joinSep_cons_cons, nl2, ← ih]
  | case3 c rest h ih =>
    simp only [splitParas]
    rw [joinSep_consHead c _ (splitParas_ne_nil rest), ih]

theorem joinSep_snoc (xs : List Str) (y : Str) :
    joinSep (xs ++ [y]) = if xs = [] then y else joinSep xs ++ nl2 ++ y := by
  induction xs with
  | nil => simp [joinSep]
  | cons x xs ih =>
    cases xs with
    | nil => simp [joinSep_cons_cons, joinSep]
    | cons z zs =>
      simp only [List.cons_append, joinSep_cons_cons]
      rw [List.cons_append] at ih
      rw [ih]
      simp [joinSep_cons_cons, List.append_assoc]

theorem joinSep_ne_nil (l : List Str) (h1 : l ≠ []) (h2 : ∀ p ∈ l, p ≠ []) :
    joinSep l ≠ [] := by
  cases l with
  | nil => exact absurd rfl h1
  | cons p ps =>
    cases ps with
    | nil => simpa [joinSep] using h2 p (by simp)
    | cons q qs => simp [joinSep_cons_cons, nl2]

theorem joinSep_withCur_ne (st : SplitState) (h : st.current ≠ []) :
    joinSep (withCur st) ≠ [] := by
  unfold withCur
  rw [if_neg h, joinSep_snoc]
  by_cases hp : st.pieces = []
  · simpa [hp] using h
  · simp [hp, nl2]

theorem glueSep_nil_left (b : Str) : glueSep [] b = b := by simp [glueSep]

theorem glueSep_nil_right (a : Str) : glueSep a [] = a := by
  by_cases h : a = [] <;> simp [glueSep, h]

theorem splitStep_empty_fit (B : Nat) (st : SplitState) (p : Str)
    (hp : p ≠ []) (hcur : st.current = []) (hpB : p.length ≤ B) :
    splitStep B st p = { st with current := p } := by
  simp [splitStep, hp, hcur, hpB]

theorem splitStep_fit (B : Nat) (st : SplitState) (p : Str)
    (hp : p ≠ []) (hcur : st.current ≠ [])
    (hfit : st.current.length + (nl2.length + p.length) ≤ B) :
    splitStep B st p = { st with current := st.current ++ (nl2 ++ p) } := by
  simp [splitStep, hp, hcur, hfit]

theorem splitStep_flush (B : Nat) (st : SplitState) (p : Str)
    (hp : p ≠ []) (hcur : st.current ≠ [])
    (hnofit : ¬ st.current.length + (nl2.length + p.length) ≤ B) (hpB : p.length ≤ B) :
    splitStep B st p = { pieces := st.pieces ++ [st.current], current := p } := by
  simp [splitStep, hp, hcur, hnofit, hpB]

theorem joinSep_withCur_fit (st : SplitState) (p : Str) (hcur : st.current ≠ []) :
    joinSep (withCur { st with current := st.current ++ (nl2 ++ p) }) =
      joinSep (withCur st) ++ nl2 ++ p := by
  have h2 : st.current ++ (nl2 ++ p) ≠ [] := by simp [hcur]
  unfold withCur
  rw [if_neg h2, if_neg hcur, joinSep_snoc, joinSep_snoc]
  by_cases hps : st.pieces = []
  · simp [hps]
  · simp [hps, List.append_assoc]

theorem joinSep_withCur_flush (st : SplitState) (p : Str)
    (hcur : st.current ≠ []) (hp : p ≠ []) :
    joinSep (withCur { pieces := st.pieces ++ [st.current], current := p }) =
      joinSep (withCur st) ++ nl2 ++ p := by
  have hne : st.pieces ++ [st.current] ≠ [] := by simp
  unfold withCur
  rw [if_neg hp, if_neg hcur, joinSep_snoc, if_neg hne]

theorem foldl_splitStep_glue (B : Nat) (paras : List Str) :
    ∀ st : SplitState,
    (∀ p ∈ paras, p ≠ [] ∧ p.length ≤ B) →
    ((st.pieces = [] ∧ st.current = []) ∨ st.current ≠ []) →
    joinSep (withCur (paras.foldl (splitStep B) st)) =
      glueSep (joinSep (withCur st)) (joinSep paras) := by
  induction paras with
  | nil => intro st _ _; simp [joinSep, glueSep_nil_right]
  | cons p rest ih =>
    intro st hall hinv
    obtain ⟨hp, hpB⟩ := hall p (by simp)
    have hrest : ∀ q ∈ rest, q ≠ [] ∧ q.length ≤ B := fun q hq => hall q (by simp [hq])
    rcases hinv with ⟨hpieces, hcur⟩ | hcur
    · -- empty initial state: the paragraph always fits
      have hstep : splitStep B st p = { st with current := p } :=
        splitStep_empty_fit B st p hp hcur hpB
      have hJ : joinSep (withCur st) = [] := by
        simp [withCur, hcur, hpieces, joinSep]
      rw [List.foldl_cons, hstep, ih _ hrest (Or.inr hp), hJ, glueSep_nil_left]
      have hJ2 : joinSep (withCur { st with current := p }) = p := by
        simp [withCur, hp, hpieces, joinSep]
      rw [hJ2]
      cases rest with
      | nil => simp [joinSep, glueSep_nil_right]
      | cons q qs =>
        have hne : joinSep (q :: qs) ≠ [] :=
          joinSep_ne_nil _ (by simp) (fun r hr => (hrest r hr).1)
        simp [glueSep, hp, hne, joinSep_cons_cons]
    · -- running buffer non-empty: the step appends `"\n\n" ++ p` to the block
      have hJne : joinSep (withCur st) ≠ [] := joinSep_withCur_ne st hcur
      by_cases hfit : st.current.length + (nl2.length + p.length) ≤ B
      · have hstep := splitStep_fit B st p hp hcur hfit
        have hc2 : (st.current ++ (nl2 ++ p)) ≠ [] := by simp [hcur]
        rw [List.foldl_cons, hstep, ih _ hrest (Or.inr hc2), joinSep_withCur_fit st p hcur]
        cases rest with
        | nil =>
          rw [joinSep, glueSep_nil_right]
          simp [glueSep, hJne, hp, joinSep]
        | cons q qs =>
          have hne : joinSep (q :: qs) ≠ [] :=
            joinSep_ne_nil _ (by simp) (fun r hr => (hrest r hr).1)
          have hx : joinSep (withCur st) ++ nl2 ++ p ≠ [] := by simp [nl2]
          simp [glueSep, hJne, hne, hx, joinSep_cons_cons, List.append_assoc]
      · have hstep := splitStep_flush B st p hp hcur hfit hpB
        rw [List.foldl_cons, hstep, ih _ hrest (Or.inr hp), joinSep_withCur_flush st p hcur hp]
        cases rest with
        | nil =>
          rw [joinSep, glueSep_nil_right]
          simp [glueSep, hJne, hp, joinSep]
        | cons q qs =>
          have hne : joinSep (q :: qs) ≠ [] :=
            joinSep_ne_nil _ (by simp) (fun r hr => (hrest r hr).1)
          have hx : joinSep (withCur st) ++ nl2 ++ p ≠ [] := by simp [nl2]
          simp [glueSep, hJne, hne, hx, joinSep_cons_cons, List.append_assoc]

/-- Claim C2 (counterexample): for `T = "\n\na"` and `B = 1` the splitter
returns `["a"]` — the leading paragraph separator is dropped entirely, so
neither plain concatenation nor concatenation with the `"\n\n"` separators
re-inserted reproduces `T`. -/
theorem C2_roundtrip_counterexample :
    split_large_text ("\n\na".toList) 1 = [("a".toList)] ∧
    joinSep (split_large_text ("\n\na".toList) 1) ≠ ("\n\na".toList) ∧
    (split_large_text ("\n\na".toList) 1).flatten ≠ ("\n\na".toList) := by
  decide

/-- Claim C2 (amended): for every text `T` and budget `B ≥ 1` such that every
`"\n\n"`-separated paragraph of `T` is non-empty and of length at most `B`
(so no empty paragraph is discarded and no hard split occurs), joining the
pieces returned by `split_large_text T B` with the `"\n\n"` separator
reproduces `T` exactly. -/
theorem C2_roundtrip_amended (T : Str) (B : Nat) (hB : 1 ≤ B)
    (hne : ∀ p ∈ splitParas T, p ≠ [])
    (hle : ∀ p ∈ splitParas T, p.length ≤ B) :
    joinSep (split_large_text T B) = T := by
  unfold split_large_text
  by_cases hlen : T.length ≤ B
  · simp [hlen, joinSep]
  · rw [if_neg hlen]
    have hall : ∀ p ∈ splitParas T, p ≠ [] ∧ p.length ≤ B :=
      fun p hp => ⟨hne p hp, hle p hp⟩
    have hglue := foldl_splitStep_glue B (splitParas T) ⟨[], []⟩ hall (Or.inl ⟨rfl, rfl⟩)
    have hJ0 : joinSep (withCur ⟨[], []⟩) = [] := by simp [withCur, joinSep]
    rw [hJ0, glueSep_nil_left, joinSep_splitParas] at hglue
    by_cases hwc : withCur ((splitParas T).foldl (splitStep B) ⟨[], []⟩) = []
    · exfalso
      apply hlen
      rw [← hglue, hwc]
      simp [joinSep]
    · show joinSep (if withCur ((splitParas T).foldl (splitStep B) ⟨[], []⟩) = []
          then [T] else withCur ((splitParas T).foldl (splitStep B) ⟨[], []⟩)) = T
      rw [if_neg hwc]
      exact hglue

/-- Witness for the amended C2 at a concrete input. -/
theorem C2_roundtrip_amended_witness :
    joinSep (split_large_text ("ab\n\ncd".toList) 2) = ("ab\n\ncd".toList) :=
  C2_roundtrip_amended ("ab\n\ncd".toList) 2 (by decide) (by decide) (by decide)

theorem hardSplitF_length_le (B : Nat) :
    ∀ (fuel : Nat) (s : Str), ∀ p ∈ hardSplitF B fuel s, p.length ≤ B := by
  intro fuel
  induction fuel with
  | zero => intro s p hp; cases s <;> simp [hardSplitF] at hp
  | succ n ih =>
    intro s p hp
    cases s with
    | nil => simp [hardSplitF] at hp
    | cons c rest =>
      by_cases hB : B = 0
      · simp [hardSplitF, hB] at hp
      · simp only [hardSplitF, if_neg hB, List.mem_cons] at hp
        rcases hp with h | h
        · subst h
          simpa using List.length_take_le B (c :: rest)
        · exact ih _ p h

theorem hardSplit_length_le (B : Nat) (s : Str) : ∀ p ∈ hardSplit B s, p.length ≤ B :=
  hardSplitF_length_le B s.length s

theorem hardSplit_ne_nil (B : Nat) (s : Str) (hB : 1 ≤ B) (hs : s ≠ []) :
    hardSplit B s ≠ [] := by
  cases s with
  | nil => exact absurd rfl hs
  | cons c rest =>
    have hB0 : ¬ B = 0 := by omega
    simp [hardSplit, hardSplitF, hB0]

theorem splitStep_bound (B : Nat) (st : SplitState) (p : Str)
    (hpieces : ∀ q ∈ st.pieces, q.length ≤ B) (hcur : st.current.length ≤ B) :
    (∀ q ∈ (splitStep B st p).pieces, q.length ≤ B) ∧
      (splitStep B st p).current.length ≤ B := by
  unfold splitStep
  by_cases hp : p = []
  · simp only [hp, if_pos rfl]
    exact ⟨hpieces, hcur⟩
  · simp only [hp, if_neg, ite_false]
    by_cases hfit : st.current.length +
        (if st.current = [] then p else nl2 ++ p).length ≤ B
    · simp only [if_pos hfit]
      refine ⟨hpieces, ?_⟩
      simpa [List.length_append] using hfit
    · simp only [if_neg hfit]
      have hp1 : ∀ q ∈ (if st.current = [] then st.pieces else st.pieces ++ [st.current]),
          q.length ≤ B := by
        by_cases hc : st.current = []
        · simpa [hc] using hpieces
        · intro q hq
          rw [if_neg hc] at hq
          rcases List.mem_append.1 hq with h | h
          · exact hpieces q h
          · simp only [List.mem_singleton] at h
            subst h; exact hcur
      by_cases hpB : p.length ≤ B
      · simp only [if_pos hpB]
        exact ⟨hp1, hpB⟩
      · simp only [if_neg hpB]
        refine ⟨?_, by simp⟩
        intro q hq
        rcases List.mem_append.1 hq with h | h
        · exact hp1 q h
        · exact hardSplit_length_le B p q h

theorem foldl_splitStep_bound (B : Nat) (paras : List Str) :
    ∀ st : SplitState,
    (∀ q ∈ st.pieces, q.length ≤ B) → st.current.length ≤ B →
    (∀ q ∈ (paras.foldl (splitStep B) st).pieces, q.length ≤ B) ∧
      (paras.foldl (splitStep B) st).current.length ≤ B := by
  induction paras with
  | nil => intro st h1 h2; exact ⟨h1, h2⟩
  | cons p rest ih =>
    intro st h1 h2
    obtain ⟨h1b, h2b⟩ := splitStep_bound B st p h1 h2
    exact ih _ h1b h2b

theorem splitStep_withCur_ne (B : Nat) (st : SplitState) (p : Str)
    (hB : 1 ≤ B) (hp : p ≠ []) : withCur (splitStep B st p) ≠ [] := by
  unfold splitStep
  simp only [hp, if_neg, ite_false]
  by_cases hfit : st.current.length + (if st.current = [] then p else nl2 ++ p).length ≤ B
  · simp only [if_pos hfit]
    have : st.current ++ (if st.current = [] then p else nl2 ++ p) ≠ [] := by
      by_cases hc : st.current = [] <;> simp [hc, hp, nl2]
    simp [withCur, this]
  · simp only [if_neg hfit]
    by_cases hpB : p.length ≤ B
    · simp [withCur, hp, hpB]
    · simp only [if_neg hpB]
      have hhs : hardSplit B p ≠ [] := hardSplit_ne_nil B p hB hp
      simp [withCur, hhs]

theorem splitStep_withCur_preserve (B : Nat) (st : SplitState) (p : Str)
    (hB : 1 ≤ B) (h : withCur st ≠ []) : withCur (splitStep B st p) ≠ [] := by
  by_cases hp : p = []
  · simpa [splitStep, hp] using h
  · exact splitStep_withCur_ne B st p hB hp

theorem foldl_splitStep_withCur_ne (B : Nat) (paras : List Str) (hB : 1 ≤ B) :
    ∀ st : SplitState, ((∃ p ∈ paras, p ≠ []) ∨ withCur st ≠ []) →
    withCur (paras.foldl (splitStep B) st) ≠ [] := by
  induction paras with
  | nil =>
    intro st h
    rcases h with ⟨p, hp, _⟩ | h
    · simp at hp
    · exact h
  | cons p rest ih =>
    intro st h
    rcases h with ⟨q, hq, hqne⟩ | h
    · rcases List.mem_cons.1 hq with rfl | hq2
      · exact ih _ (Or.inr (splitStep_withCur_ne B st q hB hqne))
      · by_cases hp : p = []
        · exact ih _ (Or.inl ⟨q, hq2, hqne⟩)
        · exact ih _ (Or.inr (splitStep_withCur_ne B st p hB hp))
    · exact ih _ (Or.inr (splitStep_withCur_preserve B st p hB h))

theorem mem_withCur (st : SplitState) (q : Str) (h : q ∈ withCur st) :
    q ∈ st.pieces ∨ q = st.current := by
  unfold withCur at h
  by_cases hc : st.current = []
  · rw [if_pos hc] at h; exact Or.inl h
  · rw [if_neg hc] at h
    rcases List.mem_append.1 h with h2 | h2
    · exact Or.inl h2
    · simp only [List.mem_singleton] at h2; exact Or.inr h2

/-- Claim C5 (counterexample): for `T = "\n\n\n\n"` and `B = 1` every
paragraph is empty, so the packing loop produces no pieces and the
`return pieces if pieces else [text]` fallback returns the original
4-character text as a single piece exceeding the budget. -/
theorem C5_bound_counterexample :
    split_large_text ("\n\n\n\n".toList) 1 = [("\n\n\n\n".toList)] ∧
    ∃ p ∈ split_large_text ("\n\n\n\n".toList) 1, 1 < p.length := by
  decide

/-- Claim C5 (amended): for every budget `B ≥ 1`, every piece returned by
`split_large_text T B` has length at most `B`, provided `T` has at least one
non-empty `"\n\n"`-separated paragraph (excluding only the all-empty
fallback exhibited by the counterexample). -/
theorem C5_bound_amended (T : Str) (B : Nat) (hB : 1 ≤ B)
    (hne : ∃ p ∈ splitParas T, p ≠ []) :
    ∀ piece ∈ split_large_text T B, piece.length ≤ B := by
  unfold split_large_text
  by_cases hlen : T.length ≤ B
  · intro piece hp
    simp only [if_pos hlen, List.mem_singleton] at hp
    subst hp; exact hlen
  · rw [if_neg hlen]
    have hwc := foldl_splitStep_withCur_ne B (splitParas T) hB ⟨[], []⟩ (Or.inl hne)
    have hbound := foldl_splitStep_bound B (splitParas T) ⟨[], []⟩ (by simp) (by simp)
    show ∀ piece ∈ (if withCur ((splitParas T).foldl (splitStep B) ⟨[], []⟩) = []
        then [T] else withCur ((splitParas T).foldl (splitStep B) ⟨[], []⟩)), piece.length ≤ B
    rw [if_neg hwc]
    intro piece hp
    rcases mem_withCur _ piece hp with h | h
    · exact hbound.1 piece h
    · rw [h]; exact hbound.2

/-- Witness for the amended C5 at a concrete input. -/
theorem C5_bound_amended_witness :
    ("a".toList) ∈ split_large_text ("ab".toList) 1 ∧ ("a".toList).length ≤ 1 :=
  ⟨by decide, C5_bound_amended ("ab".toList) 1 (by decide) (by decide) ("a".toList) (by decide)⟩

/-- Claim C10: because `escape_latex` applies its replacements sequentially
with backslash first and braces later, the braces of the inserted
`\textbackslash{}` command are themselves escaped by the subsequent brace
replacements, so `escape_latex "\\"` is `\textbackslash\{\}`, not
`\textbackslash{}`. -/
theorem C10_escape_backslash :
    escape_latex (['\\']) = ("\\textbackslash\\\x7b\\\x7d".toList) ∧
    escape_latex (['\\']) ≠ ("\\textbackslash\x7b\x7d".toList) := by
  decide

theorem natDigitsF_length_le :
    ∀ (fuel k n : Nat), n < fuel → n < 10 ^ k → 1 ≤ k →
    (natDigitsF fuel n).length ≤ k := by
  intro fuel
  induction fuel with
  | zero => intro k n h; omega
  | succ m ih =>
    intro k n hfuel hpow hk
    by_cases h10 : n < 10
    · simp only [natDigitsF, if_pos h10, List.length_singleton]
      exact hk
    · simp only [natDigitsF, if_neg h10, List.length_append, List.length_singleton]
      have hk2 : 2 ≤ k := by
        by_contra hlt
        have : k = 1 := by omega
        subst this
        simp at hpow
        omega
      have hrec : (natDigitsF m (n / 10)).length ≤ k - 1 := by
        apply ih (k - 1) (n / 10) (by omega)
        · have : 10 ^ k = 10 ^ (k - 1) * 10 := by
            conv => rw [← pow_succ]
            congr 1
            omega
          rw [this] at hpow
          exact Nat.div_lt_of_lt_mul (by omega)
        · omega
      omega

theorem natDigits_length_le3 (n : Nat) (h : n < 1000) : (natDigits n).length ≤ 3 := by
  have : (1000 : Nat) = 10 ^ 3 := by norm_num
  exact natDigitsF_length_le (n + 1) 3 n (by omega) (by omega) (by omega)

theorem pad3_length (n : Nat) (h : n < 1000) : (pad3 n).length = 3 := by
  have := natDigits_length_le3 n h
  simp only [pad3, List.length_append, List.length_replicate]
  omega

/-- Claim C6 (counterexample): the checkpoint of chunk 1 for output directory
`/out`, module `mod` and fingerprint `abc123def456` is stored at
`/out/.t2md_runs/mod_abc123def456/chunk_001.md` — the cache directory is
literally named `.t2md_runs`, not `.cache`, and the checkpoint extension is
always `.md` regardless of the output format. -/
theorem C6_cache_path_counterexample :
    checkpointPath ("/out".toList) ("mod".toList) ("abc123def456".toList) 1
      = ("/out/.t2md_runs/mod_abc123def456/chunk_001.md".toList) ∧
    containsStr (".cache".toList)
      (checkpointPath ("/out".toList) ("mod".toList) ("abc123def456".toList) 1) = false ∧
    containsStr (".t2md_runs".toList)
      (checkpointPath ("/out".toList) ("mod".toList) ("abc123def456".toList) 1) = true := by
  decide

/-- Claim C6 (amended): checkpoint files live at
`{output_dir}/.t2md_runs/{sanitized_module}_{fingerprint}/chunk_{NNN}.md` —
a directory literally named `.t2md_runs` inside the output directory (not
`.cache`), with the chunk index zero-padded to 3 digits and a fixed `.md`
extension independent of the output format. -/
theorem C6_cache_path_amended (out module_name run_hash : Str) (idx : Nat) :
    checkpointPath out module_name run_hash idx =
      out ++ ("/.t2md_runs/".toList) ++ sanitize_name module_name ++ ('_' :: run_hash)
        ++ ("/chunk_".toList) ++ pad3 idx ++ (".md".toList) ∧
    (idx < 1000 → (pad3 idx).length = 3) := by
  constructor
  · simp [checkpointPath, cacheDirPath]
  · exact pad3_length idx

/-- Witness for the amended C6 at a concrete input. -/
theorem C6_cache_path_amended_witness :
    checkpointPath ("o".toList) ("m".toList) ("h".toList) 7 =
      ("o".toList) ++ ("/.t2md_runs/".toList) ++ sanitize_name ("m".toList) ++ ('_' :: ("h".toList))
        ++ ("/chunk_".toList) ++ pad3 7 ++ (".md".toList) ∧ (pad3 7).length = 3 :=
  ⟨(C6_cache_path_amended ("o".toList) ("m".toList) ("h".toList) 7).1,
   (C6_cache_path_amended ("o".toList) ("m".toList) ("h".toList) 7).2 (by decide)⟩

theorem digitVal_digitChar (d : Nat) (h : d < 10) : digitVal (digitChar d) = d := by
  interval_cases d <;> decide

theorem valOfDigits_append (xs : Str) (c : Char) :
    valOfDigits (xs ++ [c]) = 10 * valOfDigits xs + digitVal c := by
  simp [valOfDigits, List.foldl_append]

theorem valOfDigits_natDigitsF :
    ∀ (fuel n : Nat), n < fuel → valOfDigits (natDigitsF fuel n) = n := by
  intro fuel
  induction fuel with
  | zero => intro n h; omega
  | succ m ih =>
    intro n hfuel
    by_cases h10 : n < 10
    · simp only [natDigitsF, if_pos h10]
      have : valOfDigits [digitChar n] = digitVal (digitChar n) := by
        simp [valOfDigits]
      rw [this, digitVal_digitChar n h10]
    · simp only [natDigitsF, if_neg h10]
      rw [valOfDigits_append, ih (n / 10) (by omega),
        digitVal_digitChar (n % 10) (by omega)]
      omega

theorem valOfDigits_natDigits (n : Nat) : valOfDigits (natDigits n) = n :=
  valOfDigits_natDigitsF (n + 1) n (by omega)

theorem natDigits_injective (a b : Nat) (h : natDigits a = natDigits b) : a = b := by
  have := valOfDigits_natDigits a
  rw [h, valOfDigits_natDigits b] at this
  omega

/-- Claim C4 (counterexample): `compute_run_hash` feeds the fields to the
hash with no separators, so the two distinct single-file stat lists
`[("/a", size 12, mtime 3)]` and `[("/a", size 1, mtime 23)]` serialize to
the identical byte stream `"/a123"` and therefore produce the identical
fingerprint with all other inputs fixed. -/
theorem C4_fingerprint_counterexample :
    ([(("/a".toList), 12, 3)] : List (Str × Nat × Nat)) ≠ [(("/a".toList), 1, 23)] ∧
    runHashInput ("m".toList) ("g".toList) 20000 ("md".toList) ("r".toList)
        [(("/a".toList), 12, 3)]
      = runHashInput ("m".toList) ("g".toList) 20000 ("md".toList) ("r".toList)
        [(("/a".toList), 1, 23)] ∧
    compute_run_hash [(("/a".toList), 12, 3)] ("m".toList) ("g".toList) 20000
        ("r".toList) ("md".toList)
      = compute_run_hash [(("/a".toList), 1, 23)] ("m".toList) ("g".toList) 20000
        ("r".toList) ("md".toList) := by
  have h2 : runHashInput ("m".toList) ("g".toList) 20000 ("md".toList) ("r".toList)
        [(("/a".toList), 12, 3)]
      = runHashInput ("m".toList) ("g".toList) 20000 ("md".toList) ("r".toList)
        [(("/a".toList), 1, 23)] := by decide
  exact ⟨by decide, h2,
    congrArg (fun s => (hexDigest (sha256 (utf8Encode s))).take 12) h2⟩

/-- Claim C4 (amended): the fingerprint is a pure function of the inputs, so
identical module/model/chunk-size/format/rules and identical ordered file
(path, size, mtime) triples give an identical fingerprint; and changing any
one of the scalar inputs (module name, model, chunk size, format, rules)
with the others fixed changes the serialized hash input (hence the
fingerprint up to SHA-256 collisions). Changing only the file triples,
however, may leave the serialized input — and hence the fingerprint —
unchanged, as the counterexample shows. -/
theorem C4_fingerprint_amended :
    (∀ (files : List (Str × Nat × Nat)) (m mdl : Str) (cc : Nat) (r fmt : Str)
       (files2 : List (Str × Nat × Nat)) (m2 mdl2 : Str) (cc2 : Nat) (r2 fmt2 : Str),
       files = files2 → m = m2 → mdl = mdl2 → cc = cc2 → r = r2 → fmt = fmt2 →
       compute_run_hash files m mdl cc r fmt = compute_run_hash files2 m2 mdl2 cc2 r2 fmt2) ∧
    (∀ (m m2 mdl : Str) (cc : Nat) (fmt r : Str) (files : List (Str × Nat × Nat)),
       m ≠ m2 →
       runHashInput m mdl cc fmt r files ≠ runHashInput m2 mdl cc fmt r files) ∧
    (∀ (m mdl mdl2 : Str) (cc : Nat) (fmt r : Str) (files : List (Str × Nat × Nat)),
       mdl ≠ mdl2 →
       runHashInput m mdl cc fmt r files ≠ runHashInput m mdl2 cc fmt r files) ∧
    (∀ (m mdl : Str) (cc cc2 : Nat) (fmt r : Str) (files : List (Str × Nat × Nat)),
       cc ≠ cc2 →
       runHashInput m mdl cc fmt r files ≠ runHashInput m mdl cc2 fmt r files) ∧
    (∀ (m mdl : Str) (cc : Nat) (fmt fmt2 r : Str) (files : List (Str × Nat × Nat)),
       fmt ≠ fmt2 →
       runHashInput m mdl cc fmt r files ≠ runHashInput m mdl cc fmt2 r files) ∧
    (∀ (m mdl : Str) (cc : Nat) (fmt r r2 : Str) (files : List (Str × Nat × Nat)),
       r ≠ r2 →
       runHashInput m mdl cc fmt r files ≠ runHashInput m mdl cc fmt r2 files) := by
  refine ⟨?_, ?_, ?_, ?_, ?_, ?_⟩
  · intro files m mdl cc r fmt files2 m2 mdl2 cc2 r2 fmt2 h1 h2 h3 h4 h5 h6
    subst h1; subst h2; subst h3; subst h4; subst h5; subst h6; rfl
  · intro m m2 mdl cc fmt r files hne heq
    unfold runHashInput at heq
    exact hne (List.append_cancel_right (List.append_cancel_right
      (List.append_cancel_right (List.append_cancel_right
        (List.append_cancel_right heq)))))
  · intro m mdl mdl2 cc fmt r files hne heq
    unfold runHashInput at heq
    exact hne (List.append_cancel_left (List.append_cancel_right
      (List.append_cancel_right (List.append_cancel_right
        (List.append_cancel_right heq)))))
  · intro m mdl cc cc2 fmt r files hne heq
    unfold runHashInput at heq
    exact hne (natDigits_injective cc cc2 (List.append_cancel_left
      (List.append_cancel_right (List.append_cancel_right
        (List.append_cancel_right heq)))))
  · intro m mdl cc fmt fmt2 r files hne heq
    unfold runHashInput at heq
    exact hne (List.append_cancel_left (List.append_cancel_right
      (List.append_cancel_right heq)))
  · intro m mdl cc fmt r r2 files hne heq
    unfold runHashInput at heq
    exact hne (List.append_cancel_left (List.append_cancel_right heq))

/-- Witness for the amended C4 at concrete inputs. -/
theorem C4_fingerprint_amended_witness :
    compute_run_hash [] ("a".toList) ("b".toList) 1 ("c".toList) ("d".toList)
      = compute_run_hash [] ("a".toList) ("b".toList) 1 ("c".toList) ("d".toList) ∧
    runHashInput ("a".toList) ("b".toList) 1 ("d".toList) ("c".toList) []
      ≠ runHashInput ("x".toList) ("b".toList) 1 ("d".toList) ("c".toList) [] ∧
    runHashInput ("a".toList) ("b".toList) 1 ("d".toList) ("c".toList) []
      ≠ runHashInput ("a".toList) ("b".toList) 2 ("d".toList) ("c".toList) [] :=
  ⟨C4_fingerprint_amended.1 [] ("a".toList) ("b".toList) 1 ("c".toList) ("d".toList)
      [] ("a".toList) ("b".toList) 1 ("c".toList) ("d".toList) rfl rfl rfl rfl rfl rfl,
   C4_fingerprint_amended.2.1 ("a".toList) ("x".toList) ("b".toList) 1 ("d".toList)
      ("c".toList) [] (by decide),
   C4_fingerprint_amended.2.2.2.1 ("a".toList) ("b".toList) 1 2 ("d".toList)
      ("c".toList) [] (by decide)⟩

/-- Claim C7: with exactly one assembled chunk, the run performs the single
whole-transcript generation call and nothing else: the only prompt sent is
`build_single_prompt` (so no chunk-note prompt is ever sent), the cache
directory is not created, no checkpoint is written (the checkpoint store is
returned untouched), and no chunk notes are built. -/
theorem C7_single_chunk (resume : Bool) (gen : Str → Str) (cache0 : Cache)
    (module_name prompt_rules : Str) (chunks : List Str) (h1 : chunks.length = 1) :
    (runPipeline resume gen cache0 module_name prompt_rules chunks).2.calls
      = [build_single_prompt module_name prompt_rules (chunks.headD [])] ∧
    (runPipeline resume gen cache0 module_name prompt_rules chunks).2.cacheDirCreated = false ∧
    (runPipeline resume gen cache0 module_name prompt_rules chunks).2.cache = cache0 ∧
    (runPipeline resume gen cache0 module_name prompt_rules chunks).2.notes = [] ∧
    (runPipeline resume gen cache0 module_name prompt_rules chunks).1
      = generate_with_model gen
          (build_single_prompt module_name prompt_rules (chunks.headD [])) := by
  simp [runPipeline, h1]

/-- Witness for C7 at a concrete input. -/
theorem C7_single_chunk_witness :
    (runPipeline true (fun _ => ("o".toList)) [] ("m".toList) ("r".toList)
        [("t".toList)]).2.calls
      = [build_single_prompt ("m".toList) ("r".toList) ([("t".toList)].headD [])] ∧
    (runPipeline true (fun _ => ("o".toList)) [] ("m".toList) ("r".toList)
        [("t".toList)]).2.cacheDirCreated = false ∧
    (runPipeline true (fun _ => ("o".toList)) [] ("m".toList) ("r".toList)
        [("t".toList)]).2.cache = [] ∧
    (runPipeline true (fun _ => ("o".toList)) [] ("m".toList) ("r".toList)
        [("t".toList)]).2.notes = [] ∧
    (runPipeline true (fun _ => ("o".toList)) [] ("m".toList) ("r".toList)
        [("t".toList)]).1
      = generate_with_model (fun _ => ("o".toList))
          (build_single_prompt ("m".toList) ("r".toList) ([("t".toList)].headD [])) :=
  C7_single_chunk true (fun _ => ("o".toList)) [] ("m".toList) ("r".toList)
    [("t".toList)] (by decide)

theorem goodCheckpoint_lookup (c : Cache) (i : Nat) (h : goodCheckpoint c i = true) :
    ∃ v, List.lookup i c = some v ∧ (pyStrip v).isEmpty = false := by
  unfold goodCheckpoint at h
  cases hlk : List.lookup i c with
  | none => rw [hlk] at h; simp at h
  | some v =>
    rw [hlk] at h
    simp only [Bool.not_eq_true'] at h
    exact ⟨v, rfl, h⟩

theorem mapChunks_all_cached (gen : Str → Str) (m r : Str) (total : Nat) :
    ∀ (l : List (Nat × Str)) (st : MapState),
    (∀ p ∈ l, goodCheckpoint st.cache p.1 = true) →
    mapChunks true gen m r total l st =
      .ok { notes := st.notes
              ++ l.map (fun p => wrapChunkNote p.1 (pyStrip (cacheContent st.cache p.1))),
            cache := st.cache, calls := st.calls } := by
  intro l
  induction l with
  | nil => intro st _; simp [mapChunks]
  | cons p rest ih =>
    intro st hall
    obtain ⟨v, hlk, hve⟩ := goodCheckpoint_lookup st.cache p.1 (hall p (by simp))
    have hstep : stepChunk true gen m r total st p =
        .ok { st with notes := st.notes ++ [wrapChunkNote p.1 (pyStrip v)] } := by
      simp [stepChunk, hlk, hve]
    have hrest : ∀ q ∈ rest,
        goodCheckpoint ({ st with
          notes := st.notes ++ [wrapChunkNote p.1 (pyStrip v)] } : MapState).cache q.1 = true :=
      fun q hq => hall q (by simp [hq])
    rw [mapChunks, hstep]
    show mapChunks true gen m r total rest
        { st with notes := st.notes ++ [wrapChunkNote p.1 (pyStrip v)] } = _
    rw [ih _ hrest]
    simp [cacheContent, hlk]

theorem mem_enumFrom (l : List α) :
    ∀ (k : Nat) (p : Nat × α), p ∈ enumFrom k l → k ≤ p.1 ∧ p.1 - k < l.length := by
  induction l with
  | nil => intro k p hp; simp [enumFrom] at hp
  | cons a as ih =>
    intro k p hp
    rcases List.mem_cons.1 hp with rfl | hp2
    · simp
    · have := ih (k + 1) p hp2
      constructor <;> [omega; skip]
      simp only [List.length_cons]
      omega

/-- Claim C1: with more than one chunk and a prior checkpoint directory
holding a non-empty (after stripping) checkpoint for every chunk index, a
resumed run sends exactly one prompt to the generation backend — the reduce
prompt over the concatenated cached notes — performs zero chunk-note
generation calls, writes nothing to the checkpoint store, and uses each
cached chunk's stripped content verbatim, wrapped in its `CHUNK {k} NOTES`
header, in chunk-index order. -/
theorem C1_cache_resume (gen : Str → Str) (cache0 : Cache) (m r : Str)
    (chunks : List Str) (hN : 1 < chunks.length)
    (hcache : ∀ i, i < chunks.length → goodCheckpoint cache0 (i + 1) = true) :
    (runPipeline true gen cache0 m r chunks).2.notes =
      (enumFrom 1 chunks).map
        (fun p => wrapChunkNote p.1 (pyStrip (cacheContent cache0 p.1))) ∧
    (runPipeline true gen cache0 m r chunks).2.calls =
      [build_reduce_prompt m r (pyStrip ((enumFrom 1 chunks).map
        (fun p => wrapChunkNote p.1 (pyStrip (cacheContent cache0 p.1)))).flatten)] ∧
    (runPipeline true gen cache0 m r chunks).2.cache = cache0 := by
  have hlen : ¬ chunks.length = 1 := by omega
  have hall : ∀ p ∈ enumFrom 1 chunks,
      goodCheckpoint (initMapState cache0).cache p.1 = true := by
    intro p hp
    obtain ⟨h1, h2⟩ := mem_enumFrom chunks 1 p hp
    have := hcache (p.1 - 1) (by omega)
    have heq : p.1 - 1 + 1 = p.1 := by omega
    rw [heq] at this
    exact this
  have hmap : mapChunks true gen m r chunks.length (enumFrom 1 chunks)
      { notes := [], cache := cache0, calls := [] }
      = .ok { notes := ([] : List Str) ++ (enumFrom 1 chunks).map
                (fun p => wrapChunkNote p.1 (pyStrip (cacheContent cache0 p.1))),
              cache := cache0, calls := ([] : List Str) } :=
    mapChunks_all_cached gen m r chunks.length (enumFrom 1 chunks)
      (initMapState cache0) hall
  simp [runPipeline, hlen, initMapState, hmap]

/-- Witness for C1 at a concrete two-chunk input with both checkpoints
cached. -/
theorem C1_cache_resume_witness :
    (runPipeline true (fun _ => ("ok".toList)) [(1, ("A".toList)), (2, ("B".toList))]
        ("m".toList) ("r".toList) [("x".toList), ("y".toList)]).2.cache
      = [(1, ("A".toList)), (2, ("B".toList))] ∧
    (runPipeline true (fun _ => ("ok".toList)) [(1, ("A".toList)), (2, ("B".toList))]
        ("m".toList) ("r".toList) [("x".toList), ("y".toList)]).2.calls
      = [build_reduce_prompt ("m".toList) ("r".toList)
          (pyStrip ((enumFrom 1 [("x".toList), ("y".toList)]).map
            (fun p => wrapChunkNote p.1
              (pyStrip (cacheContent [(1, ("A".toList)), (2, ("B".toList))] p.1)))).flatten)] :=
  have h := C1_cache_resume (fun _ => ("ok".toList)) [(1, ("A".toList)), (2, ("B".toList))]
    ("m".toList) ("r".toList) [("x".toList), ("y".toList)] (by decide) (by decide)
  ⟨h.2.2, h.2.1⟩

theorem mapChunks_append (resume : Bool) (gen : Str → Str) (m r : Str) (total : Nat)
    (l1 l2 : List (Nat × Str)) :
    ∀ st : MapState,
    mapChunks resume gen m r total (l1 ++ l2) st =
      match mapChunks resume gen m r total l1 st with
      | .ok st2 => mapChunks resume gen m r total l2 st2
      | .error st2 => .error st2 := by
  induction l1 with
  | nil => intro st; simp [mapChunks]
  | cons ic rest ih =>
    intro st
    rw [List.cons_append, mapChunks, mapChunks]
    cases stepChunk resume gen m r total st ic with
    | ok st2 => exact ih st2
    | error st2 => rfl

/-- Claim C3: if the map phase reaches chunk `idx` (the prefix `done`
succeeded, producing state `stMid`), the checkpoint for `idx` does not allow
reuse, and the generation backend returns blank output for that chunk's
prompt, then the whole run aborts: the map loop stops in an error state, no
final output is produced, the failing chunk's checkpoint is not written (the
store is exactly `stMid.cache`, so checkpoints already written for earlier
indices remain unchanged), no further chunk is processed, and the only
additional backend call is the failing one. -/
theorem C3_blank_aborts (resume : Bool) (gen : Str → Str) (cache0 : Cache)
    (m r : Str) (chunks : List Str) (done : List (Nat × Str)) (idx : Nat)
    (chunk : Str) (rest : List (Nat × Str)) (stMid : MapState)
    (hN : 1 < chunks.length)
    (hlist : enumFrom 1 chunks = done ++ (idx, chunk) :: rest)
    (hpre : mapChunks resume gen m r chunks.length done (initMapState cache0) = .ok stMid)
    (hmiss : ¬(resume = true ∧ goodCheckpoint stMid.cache idx = true))
    (hblank : pyStrip (gen (build_chunk_prompt m r chunk idx chunks.length)) = []) :
    mapChunks resume gen m r chunks.length (enumFrom 1 chunks) (initMapState cache0)
      = .error { notes := stMid.notes, cache := stMid.cache,
                 calls := stMid.calls ++ [build_chunk_prompt m r chunk idx chunks.length] } ∧
    (runPipeline resume gen cache0 m r chunks).1 = none ∧
    (runPipeline resume gen cache0 m r chunks).2.cache = stMid.cache ∧
    (runPipeline resume gen cache0 m r chunks).2.calls
      = stMid.calls ++ [build_chunk_prompt m r chunk idx chunks.length] ∧
    (runPipeline resume gen cache0 m r chunks).2.notes = stMid.notes := by
  have hlen : ¬ chunks.length = 1 := by omega
  have hstep : stepChunk resume gen m r chunks.length stMid (idx, chunk)
      = .error { stMid with
          calls := stMid.calls ++ [build_chunk_prompt m r chunk idx chunks.length] } := by
    by_cases hres : resume
    · subst hres
      have hgood : goodCheckpoint stMid.cache idx = false := by
        rcases Bool.eq_false_or_eq_true (goodCheckpoint stMid.cache idx) with h | h
        · exact absurd ⟨rfl, h⟩ hmiss
        · exact h
      cases hlk : List.lookup idx stMid.cache with
      | none => simp [stepChunk, hlk, generate_with_model, hblank]
      | some v =>
        have hve : (pyStrip v).isEmpty = true := by
          unfold goodCheckpoint at hgood
          rw [hlk] at hgood
          simpa using hgood
        simp [stepChunk, hlk, hve, generate_with_model, hblank]
    · simp only [Bool.not_eq_true] at hres
      subst hres
      simp [stepChunk, generate_with_model, hblank]
  have hmap : mapChunks resume gen m r chunks.length (enumFrom 1 chunks)
      (initMapState cache0) = .error { notes := stMid.notes, cache := stMid.cache,
                                       calls := stMid.calls
                                         ++ [build_chunk_prompt m r chunk idx chunks.length] } := by
    rw [hlist, mapChunks_append _ _ _ _ _ _ _ _, hpre]
    show mapChunks resume gen m r chunks.length ((idx, chunk) :: rest) stMid = _
    rw [mapChunks, hstep]
  refine ⟨hmap, ?_, ?_, ?_, ?_⟩ <;> simp [runPipeline, hlen, hmap]

/-- Witness for C3 at a concrete input: an always-blank backend aborts a
fresh (non-resumed) two-chunk run at the first chunk. -/
theorem C3_blank_aborts_witness :
    (runPipeline false (fun _ => ([] : Str)) [] ("m".toList) ("r".toList)
        [("a".toList), ("b".toList)]).1 = none ∧
    (runPipeline false (fun _ => ([] : Str)) [] ("m".toList) ("r".toList)
        [("a".toList), ("b".toList)]).2.cache = [] :=
  have h := C3_blank_aborts false (fun _ => ([] : Str)) [] ("m".toList) ("r".toList)
    [("a".toList), ("b".toList)] [] 1 ("a".toList) [(2, ("b".toList))] (initMapState [])
    (by decide) (by decide) rfl (by decide) rfl
  ⟨h.2.1, h.2.2.1⟩

theorem splitChar_ne_nil (sep : Char) (s : Str) : splitChar sep s ≠ [] := by
  induction s with
  | nil => simp [splitChar]
  | cons c rest ih =>
    show (if c = sep then [] :: splitChar sep rest else consHead c (splitChar sep rest)) ≠ []
    by_cases h : c = sep
    · simp [h]
    · simp only [if_neg h]
      exact consHead_ne_nil c (splitChar sep rest)

theorem renderParts_append (xs ys : List Str) :
    ∀ i, renderParts i (xs ++ ys) = renderParts i xs ++ renderParts (i + xs.length) ys := by
  induction xs with
  | nil => intro i; simp [renderParts]
  | cons x xs ih =>
    intro i
    have harith : i + (x :: xs).length = i + 1 + xs.length := by
      simp only [List.length_cons]
      omega
    rw [List.cons_append, renderParts, renderParts, ih (i + 1), harith]
    exact (List.append_assoc _ _ _).symm

theorem renderParts_even_single (i : Nat) (p : Str) (h : i % 2 = 0) :
    renderParts i [p] = apply_emphasis p := by
  have h1 : ¬ i % 2 = 1 := by omega
  simp [renderParts, h1]

theorem rejoinLast_snoc2 (front : List Str) (a b : Str) :
    rejoinLast (front ++ [a, b]) = front ++ [a ++ '\x60' :: b] := by
  unfold rejoinLast
  have h : (front ++ [a, b]).reverse = b :: a :: front.reverse := by simp
  rw [h]
  simp

/-- Claim C8: when splitting a line on backticks yields an even number of
segments (an unmatched trailing backtick), `convert_inline_md` rejoins the
last two raw segments with the backtick and emits the result through the
literal-escaping `apply_emphasis` path (an even rendering index), not as a
`\texttt` code span. -/
theorem C8_unmatched_backtick (text : Str)
    (hEven : (splitChar '\x60' text).length % 2 = 0) :
    ∃ a b, (splitChar '\x60' text).drop ((splitChar '\x60' text).length - 2) = [a, b] ∧
      ((splitChar '\x60' text).take ((splitChar '\x60' text).length - 2)).length % 2 = 0 ∧
      convert_inline_md text =
        renderParts 0 ((splitChar '\x60' text).take ((splitChar '\x60' text).length - 2))
          ++ apply_emphasis (a ++ '\x60' :: b) := by
  have hne := splitChar_ne_nil '\x60' text
  have hlen1 : 1 ≤ (splitChar '\x60' text).length := by
    cases h : splitChar '\x60' text with
    | nil => exact absurd h hne
    | cons x xs => simp
  have hlen2 : 2 ≤ (splitChar '\x60' text).length := by
    rcases Nat.lt_or_ge (splitChar '\x60' text).length 2 with h | h
    · interval_cases h2 : (splitChar '\x60' text).length <;> omega
    · exact h
  have hdroplen : ((splitChar '\x60' text).drop ((splitChar '\x60' text).length - 2)).length = 2 := by
    simp only [List.length_drop]
    omega
  obtain ⟨a, b, hab⟩ := List.length_eq_two.1 hdroplen
  refine ⟨a, b, hab, ?_, ?_⟩
  · simp only [List.length_take]
    omega
  · have hsplit : splitChar '\x60' text =
        (splitChar '\x60' text).take ((splitChar '\x60' text).length - 2) ++ [a, b] := by
      conv_lhs => rw [← List.take_append_drop ((splitChar '\x60' text).length - 2)
        (splitChar '\x60' text)]
      rw [hab]
    have hlenne1 : ¬ (splitChar '\x60' text).length = 1 := by omega
    have htakelen : ((splitChar '\x60' text).take ((splitChar '\x60' text).length - 2)).length
        = (splitChar '\x60' text).length - 2 := by
      simp only [List.length_take]
      omega
    unfold convert_inline_md
    simp only [hlenne1, if_false, hEven, if_true, ite_false, ite_true]
    conv_lhs => rw [hsplit]
    rw [rejoinLast_snoc2, renderParts_append, renderParts_even_single]
    simp only [Nat.zero_add, htakelen]
    omega

/-- Witness for C8 at the spec's example ``· `abc ``: the unterminated
backtick is emitted literally. -/
theorem C8_unmatched_backtick_witness :
    convert_inline_md ("`abc".toList)
      = renderParts 0 ((splitChar '\x60' ("`abc".toList)).take
          ((splitChar '\x60' ("`abc".toList)).length - 2))
        ++ apply_emphasis (([] : Str) ++ '\x60' :: ("abc".toList)) ∧
    convert_inline_md ("`abc".toList) = ("`abc".toList) := by
  constructor
  · obtain ⟨a, b, hab, _, heq⟩ := C8_unmatched_backtick ("`abc".toList) (by decide)
    have h2 : (splitChar '\x60' ("`abc".toList)).drop
        ((splitChar '\x60' ("`abc".toList)).length - 2) = [([] : Str), ("abc".toList)] := by
      decide
    rw [hab] at h2
    injection h2 with h3 h4
    injection h4 with h5 _
    rw [heq, h3, h5]
  · decide

theorem sws_head_ne (c d : Char) (p s : Str) (h : ¬ c = d) :
    startsWithStr (c :: p) (d :: s) = false := by
  simp [startsWithStr, h]

theorem sws_peel (a : Char) :
    ∀ (n : Nat) (p s : Str),
    startsWithStr (List.replicate n a ++ p) (List.replicate n a ++ s) = startsWithStr p s := by
  intro n
  induction n with
  | zero => intro p s; simp
  | succ m ih =>
    intro p s
    rw [List.replicate_succ, List.cons_append, List.cons_append]
    show (a == a && startsWithStr (List.replicate m a ++ p) (List.replicate m a ++ s))
      = startsWithStr p s
    rw [beq_self_eq_true, Bool.true_and, ih p s]

theorem head?_dropWhile_ne (p : Char → Bool) (l : Str) (c : Char)
    (h : (l.dropWhile p).head? = some c) : p c = false := by
  have := List.head?_dropWhile_not p l
  rw [h] at this
  exact this

theorem heading_pattern_false (i k : Nat) (D : Str) (hi1 : 1 ≤ i) (hi4 : i ≤ 4)
    (hk1 : 1 ≤ k)
    (hD : ∀ d, D.head? = some d → ¬ d = '#')
    (h2 : 5 ≤ k ∨ ∀ d, D.head? = some d → ¬ d = ' ') :
    startsWithStr (List.replicate i '#' ++ [' ']) (List.replicate k '#' ++ D) = false := by
  rcases lt_trichotomy i k with hik | hik | hik
  · have hrep : List.replicate k '#' = List.replicate i '#' ++ List.replicate (k - i) '#' := by
      rw [← List.replicate_add]
      congr 1
      omega
    rw [hrep, List.append_assoc, sws_peel]
    have hrep2 : List.replicate (k - i) '#' = '#' :: List.replicate (k - i - 1) '#' := by
      conv_lhs => rw [show k - i = (k - i - 1) + 1 by omega]
      rw [List.replicate_succ]
    rw [hrep2, List.cons_append]
    exact sws_head_ne _ _ _ _ (by decide)
  · subst hik
    rw [sws_peel]
    cases hD2 : D with
    | nil => rfl
    | cons d D2 =>
      have hd : ¬ d = ' ' := by
        rcases h2 with h5 | hsp
        · omega
        · exact hsp d (by rw [hD2]; rfl)
      exact sws_head_ne _ _ _ _ (fun h => hd h.symm)
  · have hrep : List.replicate i '#' = List.replicate k '#' ++ List.replicate (i - k) '#' := by
      rw [← List.replicate_add]
      congr 1
      omega
    rw [hrep, List.append_assoc, sws_peel]
    have hrep2 : List.replicate (i - k) '#' = '#' :: List.replicate (i - k - 1) '#' := by
      conv_lhs => rw [show i - k = (i - k - 1) + 1 by omega]
      rw [List.replicate_succ]
    rw [hrep2, List.cons_append]
    cases hD2 : D with
    | nil => rfl
    | cons d D2 =>
      have hd : ¬ d = '#' := hD d (by rw [hD2]; rfl)
      exact sws_head_ne _ _ _ _ (fun h => hd h.symm)

theorem pyRStrip_cons (c : Char) (s : Str) :
    pyRStrip (c :: s) =
      if pyRStrip s = [] then (if isPySpace c then [] else [c]) else c :: pyRStrip s := by
  unfold pyRStrip
  rw [List.reverse_cons, List.dropWhile_append]
  by_cases h : (s.reverse.dropWhile isPySpace).isEmpty = true
  · have h2 : (s.reverse.dropWhile isPySpace).reverse = [] := by
      rw [List.isEmpty_iff] at h
      rw [h]
      rfl
    rw [if_pos h, h2, if_pos rfl]
    by_cases hc : isPySpace c
    · simp [List.dropWhile, hc]
    · simp [List.dropWhile, hc]
  · have h2 : ¬ (s.reverse.dropWhile isPySpace).reverse = [] := by
      rw [List.isEmpty_iff] at h
      simpa using h
    rw [if_neg (by simpa using h), if_neg h2]
    simp

theorem hash_line_facts (L : Str)
    (h1 : 1 ≤ (L.takeWhile (fun c => c == '#')).length)
    (h2 : 5 ≤ (L.takeWhile (fun c => c == '#')).length ∨
      (L.dropWhile (fun c => c == '#')).head? ≠ some ' ') :
    startsWithStr (['#', ' ']) L = false ∧
    startsWithStr (['#', '#', ' ']) L = false ∧
    startsWithStr (['#', '#', '#', ' ']) L = false ∧
    startsWithStr (['#', '#', '#', '#', ' ']) L = false ∧
    startsWithStr (['-', ' ']) (pyLStrip L) = false ∧
    matchNumbered L = none ∧
    startsWithStr (['>', ' ']) (L) = false ∧
    ¬ (pyStrip L).isEmpty = true ∧
    startsWithStr (['\x60', '\x60', '\x60']) (pyStrip L) = false := by
  obtain ⟨k, hk⟩ : ∃ k, (L.takeWhile (fun c => c == '#')).length = k := ⟨_, rfl⟩
  rw [hk] at h1 h2
  have hT : L.takeWhile (fun c => c == '#') = List.replicate k '#' := by
    rw [← hk]
    exact List.eq_replicate_length.2 (fun b hb => by
      simpa using List.mem_takeWhile_imp hb)
  have hL : L = List.replicate k '#' ++ L.dropWhile (fun c => c == '#') := by
    conv_lhs => rw [← List.takeWhile_append_dropWhile (fun c => c == '#') L, hT]
  have hD : ∀ d, (L.dropWhile (fun c => c == '#')).head? = some d → ¬ d = '#' := by
    intro d hd
    have := head?_dropWhile_ne _ L d hd
    simpa using this
  have h2b : 5 ≤ k ∨ ∀ d, (L.dropWhile (fun c => c == '#')).head? = some d → ¬ d = ' ' := by
    rcases h2 with h | h
    · exact Or.inl h
    · refine Or.inr (fun d hd hsp => ?_)
      rw [hsp] at hd
      exact h hd
  have hhead : ∀ i, 1 ≤ i → i ≤ 4 →
      startsWithStr (List.replicate i '#' ++ [' ']) L = false := by
    intro i hi1 hi4
    rw [hL]
    exact heading_pattern_false i k _ hi1 hi4 h1 hD h2b
  have hrep1 : List.replicate k '#' = '#' :: List.replicate (k - 1) '#' := by
    conv_lhs => rw [show k = (k - 1) + 1 by omega]
    rw [List.replicate_succ]
  obtain ⟨tail, htail⟩ : ∃ tail, L = '#' :: tail := by
    refine ⟨List.replicate (k - 1) '#' ++ L.dropWhile (fun c => c == '#'), ?_⟩
    conv_lhs => rw [hL, hrep1]
    rw [List.cons_append]
  have hsharpns : isPySpace '#' = false := by decide
  have hlstrip : pyLStrip L = L := by
    rw [htail]
    simp [pyLStrip, List.dropWhile_cons, hsharpns]
  obtain ⟨t2, ht2⟩ : ∃ t2, pyRStrip L = '#' :: t2 := by
    rw [htail, pyRStrip_cons]
    by_cases h : pyRStrip tail = []
    · rw [if_pos h, hsharpns]
      exact ⟨[], rfl⟩
    · rw [if_neg h]
      exact ⟨pyRStrip tail, rfl⟩
  have hstrip : pyStrip L = '#' :: t2 := by
    rw [pyStrip, ht2]
    simp [pyLStrip, List.dropWhile_cons, hsharpns]
  refine ⟨?_, ?_, ?_, ?_, ?_, ?_, ?_, ?_, ?_⟩
  · have := hhead 1 (by omega) (by omega)
    simpa using this
  · have := hhead 2 (by omega) (by omega)
    simpa using this
  · have := hhead 3 (by omega) (by omega)
    simpa using this
  · have := hhead 4 (by omega) (by omega)
    simpa using this
  · rw [hlstrip, htail]
    exact sws_head_ne _ _ _ _ (by decide)
  · rw [matchNumbered, htail]
    simp [List.dropWhile_cons, hsharpns, List.takeWhile_cons,
      show Char.isDigit '#' = false from by decide]
  · rw [htail]
    exact sws_head_ne _ _ _ _ (by decide)
  · rw [hstrip]
    simp
  · rw [hstrip]
    exact sws_head_ne _ _ _ _ (by decide)

/-- Claim C9: in both renderers, a line whose leading run of `'#'` has length
five or more, or is not followed by a space, is not a heading: the
structured-document renderer emits it as an ordinary plain paragraph and the
typeset renderer (outside a code fence) emits it as a converted paragraph
line, closing any open quote and list. -/
theorem C9_heading_prefixes (raw : Str) (st : LatexState)
    (hcode : st.in_code = false)
    (hd1 : 1 ≤ ((pyRStrip raw).takeWhile (fun c => c == '#')).length)
    (hd2 : 5 ≤ ((pyRStrip raw).takeWhile (fun c => c == '#')).length ∨
      ((pyRStrip raw).dropWhile (fun c => c == '#')).head? ≠ some ' ')
    (ht1 : 1 ≤ ((rstripNl raw).takeWhile (fun c => c == '#')).length)
    (ht2 : 5 ≤ ((rstripNl raw).takeWhile (fun c => c == '#')).length ∨
      ((rstripNl raw).dropWhile (fun c => c == '#')).head? ≠ some ' ') :
    docxLine raw = DocxBlock.plain (pyRStrip raw) ∧
    latexLine st raw =
      ({ in_code := false, in_quote := false, list_mode := none },
        closeQuoteOut st.in_quote ++ closeListOut st.list_mode
          ++ [convert_inline_md (rstripNl raw)]) := by
  obtain ⟨hD1, hD2, hD3, hD4, hDb, hDn, hDq, hDs, hDf⟩ :=
    hash_line_facts (pyRStrip raw) hd1 hd2
  obtain ⟨hT1, hT2, hT3, hT4, hTb, hTn, hTq, hTs, hTf⟩ :=
    hash_line_facts (rstripNl raw) ht1 ht2
  constructor
  · have hDs2 : (pyStrip (pyRStrip raw)).isEmpty = false := by
      cases h : (pyStrip (pyRStrip raw)).isEmpty
      · rfl
      · exact absurd h hDs
    simp [docxLine, hDs2, hD1, hD2, hD3, hD4, hDb, hDn, hDq]
  · have hTs2 : (pyStrip (rstripNl raw)).isEmpty = false := by
      cases h : (pyStrip (rstripNl raw)).isEmpty
      · rfl
      · exact absurd h hTs
    obtain ⟨ic, iq, lm⟩ := st
    simp only [LatexState.in_code] at hcode
    subst hcode
    simp [latexLine, hTf, hTs2, hT1, hT2, hT3, hT4, hTb, hTn, hTq]

/-- Witness for C9 at a concrete input: the 5-hash line `#####x` is a plain
paragraph in the structured-document renderer and a converted paragraph in
the typeset renderer. -/
theorem C9_heading_prefixes_witness :
    docxLine ("#####x".toList) = DocxBlock.plain (pyRStrip ("#####x".toList)) ∧
    latexLine { in_code := false, in_quote := true, list_mode := some ("itemize".toList) }
        ("#####x".toList) =
      ({ in_code := false, in_quote := false, list_mode := none },
        closeQuoteOut true ++ closeListOut (some ("itemize".toList))
          ++ [convert_inline_md (rstripNl ("#####x".toList))]) :=
  C9_heading_prefixes ("#####x".toList)
    { in_code := false, in_quote := true, list_mode := some ("itemize".toList) }
    rfl (by decide) (by decide) (by decide) (by decide)
